import Mathlib

/-!
Verification of the upload queue / lifecycle manager of `@astrify/react-s3-upload`.

The development shallowly embeds the two relevant source modules:

* `src/lib/upload.ts` — the transfer / negotiation primitives
  (`uploadFile`, `uploadToS3Storage`, `buildRequestHeaders`,
  `parseValidationErrors`, `handle422Error`, `requestBatchSignedUrls`);
* `src/FileUploadContext.tsx` — the lifecycle manager
  (`addFiles`, `removeFile`, `removeAll`, `retryUpload`, the upload queue
  effect, `uploadSingleFile`, `sendFileRequest`, error bookkeeping).

Asynchronous effects are embedded as explicit state transformers on
`UploadState`; external outcomes (hash results, the negotiation response,
the XHR terminal event) are passed as parameters.  JavaScript `Map`s are
modelled as insertion-ordered association lists with `Map.set` semantics.
-/

namespace ReactS3Upload

/-! ## Data model (`src/types/file-upload.ts`) -/

/-- `UploadErrorType` union from `src/types/file-upload.ts`. -/
inductive UploadErrorType where
  | no_files
  | server_error
  | network_error
  | s3_upload
  | invalid_response
  | validation_error
  | duplicate_file
  | unknown
deriving DecidableEq, Repr

/-- `ServerErrorResponse` from `src/lib/upload.ts`: the parsed JSON body of a
non-OK negotiation response.  `errors` is a JS object `Record<string, string[]>`,
modelled as an insertion-ordered association list (JS object keys are unique). -/
structure ServerErrorResponse where
  errors : Option (List (String × List String))
  message : Option String
deriving DecidableEq, Repr

/-- The `details` payload of an `UploadError` (`unknown` in TS).  The code
stores either nothing, a string, the parsed error body, or a wrapped
lower-level error (message plus optional detail string). -/
inductive ErrDetail where
  | noDetail
  | ofString (s : String)
  | ofBody (b : ServerErrorResponse)
  | ofErr (message : String) (details : Option String)
deriving DecidableEq, Repr

/-- `UploadError` from `src/types/file-upload.ts`. -/
structure UploadError where
  type : UploadErrorType
  message : String
  details : ErrDetail := .noDetail
deriving DecidableEq, Repr

/-- `createError` from `src/lib/upload.ts`. -/
def createError (type : UploadErrorType) (message : String)
    (details : ErrDetail := .noDetail) : UploadError :=
  { type := type, message := message, details := details }

/-- `UploadStatus` union: `"pending" | "uploading" | "complete" | "error"`. -/
inductive UploadStatus where
  | pending
  | uploading
  | complete
  | error
deriving DecidableEq, Repr

/-- `SignedUrlRequest` from `src/types/file-upload.ts` (one staged candidate). -/
structure SignedUrlRequest where
  name : String
  size : Nat
  type : String
  sha256 : String
  preview : Option String := none
deriving DecidableEq, Repr

/-- `SignedUrlResponse` from `src/types/file-upload.ts` (one negotiation
response entry; the optional `extension` field is never read by the core). -/
structure SignedUrlResponse where
  sha256 : String
  bucket : String
  key : String
  url : String
  filename : Option String := none
deriving DecidableEq, Repr

/-- `FileUpload` from `src/types/file-upload.ts`: a tracked upload record.
The raw `file?: File` member is tracked separately through the manager
`fileRefs` map, so it is not part of the record here. -/
structure FileUpload where
  id : String
  name : String
  size : Nat
  type : String
  sha256 : String
  url : String
  status : UploadStatus
  progress : Nat
  error : Option String := none
  preview : Option String := none
  duplicateAlert : Bool := false
deriving DecidableEq, Repr

/-! ## String helpers

`strStartsWith` models `String.prototype.startsWith`, and `toLowerStr` models
`String.prototype.toLowerCase` on the ASCII header names involved.  Both are
defined over the character list so that they compute by structural
recursion. -/

/-- `s.startsWith(p)`. -/
def strStartsWith (s p : String) : Bool :=
  p.data.isPrefixOf s.data

/-- `s.toLowerCase()` (ASCII). -/
def toLowerStr (s : String) : String :=
  String.mk (s.data.map Char.toLower)

/-! ## `src/lib/upload.ts` — negotiation error parsing -/

/-- The `filter`/`flatMap` chain of `parseValidationErrors`: every message
under a field key starting with `"files."`, in order. -/
def fileFieldMessages (errs : List (String × List String)) : List String :=
  ((errs.filter (fun kv => strStartsWith kv.1 "files.")).map Prod.snd).flatten

/-- `parseValidationErrors` from `src/lib/upload.ts`: collect every message
under a field key starting with `"files."` and join them with `", "`. -/
def parseValidationErrors (errorData : ServerErrorResponse) : Option String :=
  match errorData.errors with
  | none => none
  | some errs =>
    let fileErrors := fileFieldMessages errs
    if fileErrors.length > 0 then some (String.intercalate ", " fileErrors)
    else none

/-- `handle422Error` from `src/lib/upload.ts`.  The argument is the result of
`response.json()`: `none` models a JSON parse failure (the `catch` branch).
JS `errorData.message || "Invalid file parameters"` treats the empty string
as falsy, hence the explicit empty-string check. -/
def handle422Error (parsed : Option ServerErrorResponse) : UploadError :=
  match parsed with
  | none => createError .validation_error "Invalid file parameters"
  | some errorData =>
    match parseValidationErrors errorData with
    | some validationMessage =>
        createError .validation_error validationMessage (.ofBody errorData)
    | none =>
        let message :=
          match errorData.message with
          | some m => if m = "" then "Invalid file parameters" else m
          | none => "Invalid file parameters"
        createError .validation_error message (.ofBody errorData)

/-! ## `src/lib/upload.ts` — request headers

The browser `Headers` object normalises names to lower case and `set`
replaces an existing entry.  We model it as an association list whose keys
are stored lowercased. -/

/-- `Headers.set`: replace the entry with the same (case-insensitive) name,
or append a fresh one. -/
def hset : List (String × String) → String → String → List (String × String)
  | [], k, v => [(toLowerStr k, v)]
  | kv :: rest, k, v =>
    if kv.1 = toLowerStr k then (kv.1, v) :: rest else kv :: hset rest k v

/-- `Headers.get` (case-insensitive lookup). -/
def hget (hs : List (String × String)) (k : String) : Option String :=
  (hs.find? (fun kv => kv.1 = toLowerStr k)).map Prod.snd

/-- The guard in `buildRequestHeaders`: caller-supplied entries with these
names are skipped. -/
def protectedHeader (k : String) : Bool :=
  toLowerStr k = "content-type" || toLowerStr k = "accept" ||
    toLowerStr k = "x-requested-with"

/-- The fixed part of `buildRequestHeaders`: the JSON content-type/accept
pair, the AJAX marker, and — when the `XSRF-TOKEN` cookie is present — the
anti-forgery token. -/
def baseHeaders (csrfToken : Option String) : List (String × String) :=
  let headers : List (String × String) := []
  let headers := hset headers "Content-Type" "application/json"
  let headers := hset headers "X-Requested-With" "XMLHttpRequest"
  let headers := hset headers "Accept" "application/json"
  match csrfToken with
  | some tok => hset headers "X-XSRF-TOKEN" tok
  | none => headers

/-- `buildRequestHeaders` from `src/lib/upload.ts`.  `csrfToken` is the result
of `getCsrfToken()` (the `XSRF-TOKEN` cookie value, decoded, when present).
`customHeaders` is the caller-supplied header record after resolving a
static map or a sync/async resolver function: all three shapes collapse to
one resolved `Record<string, string>`, iterated in entry order. -/
def buildRequestHeaders (csrfToken : Option String)
    (customHeaders : Option (List (String × String))) : List (String × String) :=
  match customHeaders with
  | none => baseHeaders csrfToken
  | some resolved =>
    resolved.foldl
      (fun hs kv => if protectedHeader kv.1 then hs else hset hs kv.1 kv.2)
      (baseHeaders csrfToken)

/-! ## `src/lib/upload.ts` — the S3 transfer primitive -/

/-- The terminal event of the `XMLHttpRequest` in `uploadToS3Storage`:
the abort handler fired, `onloadend` fired with a final HTTP status, or
`onerror` fired. -/
inductive S3Outcome where
  | aborted
  | loadend (status : Nat)
  | netError
deriving DecidableEq, Repr

/-- The rejection value of `uploadToS3Storage` (an `Error` with an optional
`details` property). -/
structure S3Err where
  message : String
  details : Option String := none
deriving DecidableEq, Repr

/-- `uploadToS3Storage` from `src/lib/upload.ts`, as a function of the XHR
terminal event: resolves only on status 200, otherwise rejects with the
message/detail pair built in `onloadend` / the abort handler / `onerror`. -/
def uploadToS3Storage : S3Outcome → Except S3Err Unit
  | .aborted => .error { message := "Upload aborted" }
  | .loadend 200 => .ok ()
  | .loadend 403 =>
      .error { message := "Upload unauthorized"
               details := some "Signed URL may have expired" }
  | .loadend 0 =>
      .error { message := "Upload failed"
               details := some "Network error or CORS issue" }
  | .loadend status =>
      .error { message := "Upload failed"
               details := some ("Status " ++ toString status) }
  | .netError => .error { message := "Network error during upload" }

/-- `uploadFile` from `src/lib/upload.ts`: wrap any failure of
`uploadToS3Storage` into an `UploadError` of type `"s3_upload"`.  The code
computes `details = err.details || error`, i.e. the detail string when the
rejection carries one and the error object itself otherwise. -/
def uploadFile (outcome : S3Outcome) : Except UploadError Unit :=
  match uploadToS3Storage outcome with
  | .ok () => .ok ()
  | .error e =>
    .error (createError .s3_upload e.message
      (match e.details with
       | some d => .ofString d
       | none => .ofErr e.message e.details))

/-! ## `src/lib/upload.ts` — `requestBatchSignedUrls` (success path)

On a 2xx response the function validates that the body has a `files` array
and returns it verbatim — it performs no reordering and no per-hash
correlation. -/

/-- The response-body handling of `requestBatchSignedUrls`: given the parsed
`files` member of the body (absent models a body without a `files` array), either
the verbatim array or the `invalid_response` error. -/
def requestBatchSignedUrls (responseFiles : Option (List SignedUrlResponse)) :
    Except UploadError (List SignedUrlResponse) :=
  match responseFiles with
  | some fs => .ok fs
  | none =>
    .error (createError .invalid_response "Invalid response from server"
      (.ofString "Expected array of signed URLs"))

/-! ## JS `Map` model

`fileUploads` is a `Map<string, FileUpload>`: insertion-ordered, `set` on an
existing key updates the value in place, `delete` removes the entry. -/

/-- `Map.set`. -/
def mapSet : List (String × FileUpload) → String → FileUpload →
    List (String × FileUpload)
  | [], k, v => [(k, v)]
  | kv :: rest, k, v =>
    if kv.1 = k then (k, v) :: rest else kv :: mapSet rest k v

/-- `Map.get`. -/
def mapGet (m : List (String × FileUpload)) (k : String) : Option FileUpload :=
  (m.find? (fun kv => kv.1 = k)).map Prod.snd

/-- `Map.delete`. -/
def mapDelete (m : List (String × FileUpload)) (k : String) :
    List (String × FileUpload) :=
  m.filter (fun kv => kv.1 ≠ k)

/-- `Map.has`. -/
def mapHas (m : List (String × FileUpload)) (k : String) : Bool :=
  m.any (fun kv => kv.1 = k)

/-- `Set.add` (also `Map.set` for the key-set views `fileRefs` and
`abortControllers`): append the element when absent. -/
def listInsert (l : List String) (h : String) : List String :=
  if l.contains h then l else l ++ [h]

/-! ## The lifecycle manager (`src/FileUploadContext.tsx`)

State of one `FileUploadProvider`.  `fileRefs` and `abortControllers` keep
only the key sets (which hashes own a raw `File` / a live
`AbortController`).  `alertTimers` records the pending `setTimeout` calls
scheduled by `handleDuplicateFile` together with their delay in
milliseconds. -/
structure UploadState where
  fileUploads : List (String × FileUpload)
  errors : List UploadError
  activeUploads : List String
  abortControllers : List String
  fileRefs : List String
  alertTimers : List (String × Nat)
  maxFiles : Nat
deriving Repr

/-- `const maxConcurrency = 3` in `FileUploadContext.tsx`. -/
def maxConcurrency : Nat := 3

/-- Initial state of the provider: `defaultFiles` are forced to
`status: "complete"`, `progress: 100`, `id: sha256`, and loaded into the
`Map` keyed by `sha256`. -/
def initState (maxFiles : Nat) (defaultFiles : List FileUpload) : UploadState :=
  let fixed := defaultFiles.map (fun f =>
    { f with id := f.sha256, status := UploadStatus.complete, progress := 100 })
  { fileUploads := fixed.foldl (fun m f => mapSet m f.sha256 f) []
    errors := []
    activeUploads := []
    abortControllers := []
    fileRefs := []
    alertTimers := []
    maxFiles := maxFiles }

/-- `updateFileUpload`: merge updates into the record at `sha256` when it
exists, otherwise leave the map unchanged. -/
def updateFileUpload (s : UploadState) (sha256 : String)
    (upd : FileUpload → FileUpload) : UploadState :=
  match mapGet s.fileUploads sha256 with
  | some f => { s with fileUploads := mapSet s.fileUploads sha256 (upd f) }
  | none => s

/-- `removeFile`: when the record exists, revoke its preview (not tracked
here), abort and drop its controller, delete the record and its raw `File`;
in all cases drop the id from `activeUploads`. -/
def removeFile (s : UploadState) (fileId : String) : UploadState :=
  let s :=
    match mapGet s.fileUploads fileId with
    | some _ =>
      { s with fileUploads := mapDelete s.fileUploads fileId
               abortControllers := s.abortControllers.filter (· ≠ fileId)
               fileRefs := s.fileRefs.filter (· ≠ fileId) }
    | none => s
  { s with activeUploads := s.activeUploads.filter (· ≠ fileId) }

/-- `removeAll`: abort every controller, clear every piece of state
(including the error log).  Pending `setTimeout` timers are not cancelled;
their firing is a no-op on the emptied map. -/
def removeAll (s : UploadState) : UploadState :=
  { s with fileUploads := []
           errors := []
           activeUploads := []
           abortControllers := []
           fileRefs := [] }

/-- `clearErrors`. -/
def clearErrors (s : UploadState) : UploadState :=
  { s with errors := [] }

/-- `addErrors`: append when the argument is non-empty. -/
def addErrors (s : UploadState) (newErrors : List UploadError) : UploadState :=
  if newErrors.length > 0 then { s with errors := s.errors ++ newErrors } else s

/-- The head of `uploadSingleFile` (run at promotion time): bail out when no
raw `File` is held for the hash, otherwise register an `AbortController`,
add the hash to `activeUploads` and set the record `status: "uploading"`. -/
def startUpload (s : UploadState) (sha256 : String) : UploadState :=
  if s.fileRefs.contains sha256 then
    let s :=
      { s with abortControllers := listInsert s.abortControllers sha256
               activeUploads := listInsert s.activeUploads sha256 }
    updateFileUpload s sha256 (fun f => { f with status := UploadStatus.uploading })
  else s

/-- A progress callback delivery inside `uploadSingleFile`
(`progress: progress * 100`). -/
def progressUpdate (s : UploadState) (sha256 : String) (progress : Nat) :
    UploadState :=
  updateFileUpload s sha256 (fun f => { f with progress := progress })

/-- Successful completion of `uploadSingleFile`: record becomes
`complete`/100, then the `finally` block drops the controller and the
active-set entry. -/
def finishUploadSuccess (s : UploadState) (sha256 : String) : UploadState :=
  let s := updateFileUpload s sha256
    (fun f => { f with status := UploadStatus.complete, progress := 100 })
  { s with abortControllers := s.abortControllers.filter (· ≠ sha256)
           activeUploads := s.activeUploads.filter (· ≠ sha256) }

/-- The collection-level error recorded when a transfer fails with
`duplicate_file`.  `name` is the `name` field of the record, captured in the closure. -/
def duplicateUploadError (name : String) : UploadError :=
  { type := .duplicate_file
    message := name ++ " was not uploaded"
    details := .ofString "This file already exists on the server" }

/-- The `catch`/`finally` of `uploadSingleFile` for a failed transfer:
`duplicate_file` deletes the record and records a collection-level error
(the raw `File` in `fileRefs` is left untouched); any other error type marks
the record `status: "error"` with the message.  The `finally` block then
drops the controller and the active-set entry. -/
def finishUploadError (s : UploadState) (sha256 name : String)
    (e : UploadError) : UploadState :=
  let s :=
    if e.type = UploadErrorType.duplicate_file then
      { s with fileUploads := mapDelete s.fileUploads sha256
               errors := s.errors ++ [duplicateUploadError name] }
    else
      updateFileUpload s sha256
        (fun f => { f with status := UploadStatus.error, error := some e.message })
  { s with abortControllers := s.abortControllers.filter (· ≠ sha256)
           activeUploads := s.activeUploads.filter (· ≠ sha256) }

/-! ### The upload-queue effect (the scheduler) -/

/-- The selection in the queue effect: records with `status === "pending"`
not already tracked in `activeUploads`, in collection (insertion) order. -/
def pendingNotActive (s : UploadState) : List (String × FileUpload) :=
  s.fileUploads.filter
    (fun kv => kv.2.status = UploadStatus.pending ∧ ¬ s.activeUploads.contains kv.1)

/-- The list promoted by one queue pass:
`pendingFiles.slice(0, maxConcurrency - activeUploads.size)`, empty when the
ceiling is already reached. -/
def promotedByPass (s : UploadState) : List (String × FileUpload) :=
  if s.activeUploads.length ≥ maxConcurrency then []
  else (pendingNotActive s).take (maxConcurrency - s.activeUploads.length)

/-- One run of the queue `useEffect`: launch `uploadSingleFile` for each
promoted record. -/
def schedulePass (s : UploadState) : UploadState :=
  (promotedByPass s).foldl (fun st kv => startUpload st kv.1) s

/-! ### `addFiles` and negotiation -/

/-- One input to `addFiles` together with its `calculateSHA256` outcome
(`none` models the hash computation throwing for that file). -/
structure IncomingFile where
  name : String
  size : Nat
  type : String
  hashResult : Option String
deriving DecidableEq, Repr

/-- `processFileToRequest` result for a hashed file: the staged candidate.
`URL.createObjectURL(file)` for image MIME types is modelled as an opaque
handle derived from the file name. -/
def mkRequest (f : IncomingFile) (hash : String) : SignedUrlRequest :=
  { name := f.name
    size := f.size
    type := f.type
    sha256 := hash
    preview := if strStartsWith f.type "image/" then some ("objecturl:" ++ f.name)
               else none }

/-- `handleDuplicateFile`: pulse the `duplicateAlert` flag of the existing record and
schedule a `setTimeout(.., 1000)` clearing it. -/
def handleDuplicateFile (s : UploadState) (hash : String) : UploadState :=
  let s := updateFileUpload s hash (fun f => { f with duplicateAlert := true })
  { s with alertTimers := s.alertTimers ++ [(hash, 1000)] }

/-- Firing of one timer scheduled by `handleDuplicateFile`: clear the flag
and retire the timer. -/
def fireAlertTimer (s : UploadState) (hash : String) : UploadState :=
  if (s.alertTimers.contains (hash, 1000)) then
    let s := updateFileUpload s hash (fun f => { f with duplicateAlert := false })
    { s with alertTimers := s.alertTimers.erase (hash, 1000) }
  else s

/-- The record created per matched response entry inside `sendFileRequest`
(`status: "pending"`, `progress: 0`). -/
def mkPendingUpload (req : SignedUrlRequest) (su : SignedUrlResponse) : FileUpload :=
  { id := req.sha256
    name := req.name
    size := req.size
    type := req.type
    sha256 := req.sha256
    url := su.url
    status := UploadStatus.pending
    progress := 0
    preview := req.preview }

/-- The mapping loop of `sendFileRequest`:
`fileRequests.forEach((req, index) => { const signedUrl = signedUrls[index]; ... })`
— the i-th request is paired with the i-th response entry; requests beyond
the response length are skipped. -/
def assignSignedUrls : List SignedUrlRequest → List SignedUrlResponse →
    List FileUpload
  | [], _ => []
  | _ :: _, [] => []
  | req :: reqs, su :: sus => mkPendingUpload req su :: assignSignedUrls reqs sus

/-- What the spec describes instead: each request is paired with the response
entry bearing its own `contentHash`, wherever it sits in the array.
(Definition follows the spec wording, for contrast with `assignSignedUrls`.) -/
def assignSignedUrlsByHash (reqs : List SignedUrlRequest)
    (sus : List SignedUrlResponse) : List FileUpload :=
  reqs.filterMap (fun req =>
    (sus.find? (fun su => su.sha256 = req.sha256)).map (mkPendingUpload req))

/-- `setFileUploads(prev => next.set(req.sha256, fileUpload))` inside the
success loop of `sendFileRequest`. -/
def insertUpload (st : UploadState) (f : FileUpload) : UploadState :=
  { st with fileUploads := mapSet st.fileUploads f.sha256 f }

/-- The failure loop of `sendFileRequest`: records that already exist for a
requested hash (the retry case) are marked `status: "error"` with the
negotiation error message. -/
def markRequestError (msg : String) (st : UploadState)
    (req : SignedUrlRequest) : UploadState :=
  if mapHas st.fileUploads req.sha256 then
    updateFileUpload st req.sha256
      (fun f => { f with status := UploadStatus.error, error := some msg })
  else st

/-- `sendFileRequest`: issue one batched negotiation call.  `negotiation` is
the outcome of `requestBatchSignedUrls`.  On success every index-matched
request yields a `pending` record `set` into the collection and is returned
as a success; on failure records that already exist for the requested hashes
(the retry case) are marked `status: "error"`, and the error is returned. -/
def sendFileRequest (s : UploadState) (fileRequests : List SignedUrlRequest)
    (negotiation : Except UploadError (List SignedUrlResponse)) :
    UploadState × List SignedUrlRequest × List UploadError :=
  match negotiation with
  | .ok signedUrls =>
    let created := assignSignedUrls fileRequests signedUrls
    (created.foldl insertUpload s, fileRequests.take signedUrls.length, [])
  | .error e =>
    (fileRequests.foldl (markRequestError e.message) s, [], [e])

/-- The error recorded when `addFiles` is called with a full collection. -/
def maxFilesError (maxFiles : Nat) : UploadError :=
  { type := .validation_error
    message := "Maximum files reached"
    details := .ofString ("Maximum " ++ toString maxFiles ++ " files allowed") }

/-- The error recorded when a batch exceeds the remaining capacity. -/
def limitError (availableSlots : Nat) : UploadError :=
  { type := .validation_error
    message := "File limit exceeded"
    details := .ofString ("Only " ++ toString availableSlots ++
      " more file(s) can be added") }

/-- The per-file error recorded when `calculateSHA256` throws. -/
def processError (name : String) : UploadError :=
  { type := .validation_error
    message := "Failed to process file"
    details := .ofString name }

/-- `maxFiles - fileUploads.size` (as in the code, before the `<= 0` test). -/
def availableSlots (s : UploadState) : Int :=
  (s.maxFiles : Int) - (s.fileUploads.length : Int)

/-- `newFiles.slice(0, availableSlots)`. -/
def filesToProcess (s : UploadState) (newFiles : List IncomingFile) :
    List IncomingFile :=
  newFiles.take (availableSlots s).toNat

/-- The body of the staging loop in `addFiles`: hash failure records a
processing error; otherwise the raw `File` is stored under its hash, then
either the duplicate pulse fires (hash already in the collection) or the
candidate is staged. -/
def stageFile (acc : UploadState × List SignedUrlRequest × List UploadError)
    (f : IncomingFile) :
    UploadState × List SignedUrlRequest × List UploadError :=
  let (st, reqs, errs) := acc
  match f.hashResult with
  | none => (st, reqs, errs ++ [processError f.name])
  | some hash =>
    let st := { st with fileRefs := listInsert st.fileRefs hash }
    if mapHas st.fileUploads hash then
      (handleDuplicateFile st hash, reqs, errs)
    else
      (st, reqs ++ [mkRequest f hash], errs)

/-- The staging loop of `addFiles` over the accepted slice, starting from
empty `fileRequests` / `processingErrors` accumulators. -/
def stagePhase (s : UploadState) (toProcess : List IncomingFile) :
    UploadState × List SignedUrlRequest × List UploadError :=
  toProcess.foldl stageFile (s, [], [])

/-- The tail of `addFiles`: `if (fileRequests.length > 0)` send one batched
negotiation call and append any request errors to the log. -/
def negotiatePhase (s : UploadState) (fileRequests : List SignedUrlRequest)
    (negotiation : Except UploadError (List SignedUrlResponse)) : UploadState :=
  if fileRequests.length > 0 then
    let sent := sendFileRequest s fileRequests negotiation
    if sent.2.2.length > 0 then
      { sent.1 with errors := sent.1.errors ++ sent.2.2 }
    else sent.1
  else s

/-- `addFiles`.  It starts by wiping the error log (`setErrors([])`), then:
capacity check, slicing, per-file staging, one batched negotiation call for
the staged candidates.  `negotiation` is the outcome of that call. -/
def addFiles (s0 : UploadState) (newFiles : List IncomingFile)
    (negotiation : Except UploadError (List SignedUrlResponse)) : UploadState :=
  let s : UploadState := { s0 with errors := [] }
  if availableSlots s ≤ 0 then
    { s with errors := [maxFilesError s.maxFiles] }
  else
    let toProcess := filesToProcess s newFiles
    let s :=
      if newFiles.length > toProcess.length then
        { s with errors := s.errors ++ [limitError (availableSlots s).toNat] }
      else s
    let staged := stagePhase s toProcess
    let s :=
      if staged.2.2.length > 0 then
        { staged.1 with errors := staged.1.errors ++ staged.2.2 }
      else staged.1
    negotiatePhase s staged.2.1 negotiation

/-- `retryUpload`: no-op when the record or its raw `File` is missing or the
upload is already active; otherwise re-negotiate for exactly this record. -/
def retryUpload (s : UploadState) (fileId : String)
    (negotiation : Except UploadError (List SignedUrlResponse)) : UploadState :=
  match mapGet s.fileUploads fileId with
  | none => s
  | some fu =>
    if ¬ s.fileRefs.contains fileId ∨ s.activeUploads.contains fileId then s
    else
      let req : SignedUrlRequest :=
        { name := fu.name, size := fu.size, type := fu.type,
          sha256 := fu.sha256, preview := fu.preview }
      let sent := sendFileRequest s [req] negotiation
      let requestErrors := sent.2.2
      if requestErrors.length > 0 then
        { sent.1 with errors := sent.1.errors ++ requestErrors }
      else sent.1

/-! ### The transition system -/

/-- Every state-mutating event of the manager: the public actions with their
external outcomes, one queue pass, and the async continuations of an
in-flight upload. -/
inductive Step : UploadState → UploadState → Prop where
  | addFiles (s : UploadState) (newFiles : List IncomingFile)
      (negotiation : Except UploadError (List SignedUrlResponse)) :
      Step s (addFiles s newFiles negotiation)
  | removeFile (s : UploadState) (fileId : String) :
      Step s (removeFile s fileId)
  | removeAll (s : UploadState) : Step s (removeAll s)
  | retryUpload (s : UploadState) (fileId : String)
      (negotiation : Except UploadError (List SignedUrlResponse)) :
      Step s (retryUpload s fileId negotiation)
  | addErrors (s : UploadState) (newErrors : List UploadError) :
      Step s (addErrors s newErrors)
  | clearErrors (s : UploadState) : Step s (clearErrors s)
  | schedulePass (s : UploadState) : Step s (schedulePass s)
  | progress (s : UploadState) (sha256 : String) (p : Nat) :
      Step s (progressUpdate s sha256 p)
  | finishOk (s : UploadState) (sha256 : String) :
      Step s (finishUploadSuccess s sha256)
  | finishErr (s : UploadState) (sha256 name : String) (e : UploadError) :
      Step s (finishUploadError s sha256 name e)
  | fireTimer (s : UploadState) (hash : String) :
      Step s (fireAlertTimer s hash)

/-- States reachable from the initial state of a provider. -/
inductive Reachable (init : UploadState) : UploadState → Prop where
  | refl : Reachable init init
  | tail {s t : UploadState} : Reachable init s → Step s t → Reachable init t

/-- The number of records currently `transferring` (`status: "uploading"`). -/
def countUploading (s : UploadState) : Nat :=
  (s.fileUploads.filter (fun kv => kv.2.status = UploadStatus.uploading)).length

/-! ## Lemmas about the `Map` model -/

theorem mapHas_iff {m : List (String × FileUpload)} {k : String} :
    mapHas m k = true ↔ ∃ f, (k, f) ∈ m := by
  unfold mapHas
  rw [List.any_eq_true]
  constructor
  · rintro ⟨kv, hm, hp⟩
    simp at hp
    exact ⟨kv.2, by rwa [← hp, Prod.mk.eta]⟩
  · rintro ⟨f, hm⟩
    exact ⟨(k, f), hm, by simp⟩

theorem mapHas_cons {hd : String × FileUpload} {tl : List (String × FileUpload)}
    {k : String} : mapHas (hd :: tl) k = (decide (hd.1 = k) || mapHas tl k) := by
  unfold mapHas
  rw [List.any_cons]

theorem mapGet_cons_pos {hd : String × FileUpload} {tl : List (String × FileUpload)}
    {k : String} (h : hd.1 = k) : mapGet (hd :: tl) k = some hd.2 := by
  unfold mapGet
  rw [List.find?_cons_of_pos _ (by simp [h])]
  rfl

theorem mapGet_cons_neg {hd : String × FileUpload} {tl : List (String × FileUpload)}
    {k : String} (h : hd.1 ≠ k) : mapGet (hd :: tl) k = mapGet tl k := by
  unfold mapGet
  rw [List.find?_cons_of_neg _ (by simp [h])]

theorem mapGet_eq_none_iff {m : List (String × FileUpload)} {k : String} :
    mapGet m k = none ↔ ∀ kv ∈ m, kv.1 ≠ k := by
  unfold mapGet
  rw [Option.map_eq_none']
  rw [List.find?_eq_none]
  simp

theorem mem_mapSet {m : List (String × FileUpload)} {k : String} {v : FileUpload}
    {kv : String × FileUpload} (h : kv ∈ mapSet m k v) : kv ∈ m ∨ kv = (k, v) := by
  induction m with
  | nil => simp [mapSet] at h; simp [h]
  | cons hd tl ih =>
    by_cases hk : hd.1 = k
    · simp [mapSet, hk] at h
      rcases h with h | h
      · right; simpa [hk] using h
      · left; exact List.mem_cons_of_mem _ h
    · simp [mapSet, hk] at h
      rcases h with h | h
      · left; simp [h]
      · rcases ih h with h' | h'
        · left; exact List.mem_cons_of_mem _ h'
        · right; exact h'

theorem keys_mapSet (m : List (String × FileUpload)) (k : String) (v : FileUpload) :
    (mapSet m k v).map Prod.fst = m.map Prod.fst ∨
      (mapSet m k v).map Prod.fst = m.map Prod.fst ++ [k] := by
  induction m with
  | nil => right; simp [mapSet]
  | cons hd tl ih =>
    by_cases hk : hd.1 = k
    · left; simp [mapSet, hk]
    · rcases ih with h | h
      · left; simp [mapSet, hk, h]
      · right; simp [mapSet, hk, h]

theorem length_mapSet_of_has {m : List (String × FileUpload)} {k : String}
    {v : FileUpload} (h : mapHas m k = true) :
    (mapSet m k v).length = m.length := by
  induction m with
  | nil => simp [mapHas] at h
  | cons hd tl ih =>
    by_cases hk : hd.1 = k
    · simp [mapSet, hk]
    · rw [mapHas_cons] at h
      simp [hk] at h
      simp [mapSet, hk, ih h]

theorem mapGet_mem {m : List (String × FileUpload)} {k : String} {f : FileUpload}
    (h : mapGet m k = some f) : (k, f) ∈ m := by
  unfold mapGet at h
  rcases ho : m.find? (fun kv => kv.1 = k) with _ | kv
  · rw [ho] at h; simp at h
  · rw [ho] at h
    simp at h
    have hmem := List.mem_of_find?_eq_some ho
    have hpred := List.find?_some ho
    simp at hpred
    subst h
    rw [← hpred]
    simpa using hmem

theorem mapGet_isSome_of_has {m : List (String × FileUpload)} {k : String}
    (h : mapHas m k = true) : ∃ f, mapGet m k = some f := by
  induction m with
  | nil => simp [mapHas] at h
  | cons hd tl ih =>
    by_cases hk : hd.1 = k
    · exact ⟨hd.2, mapGet_cons_pos hk⟩
    · rw [mapHas_cons] at h
      simp [hk] at h
      rcases ih h with ⟨f, hf⟩
      exact ⟨f, by rw [mapGet_cons_neg hk]; exact hf⟩

theorem mapHas_of_mapGet {m : List (String × FileUpload)} {k : String}
    {f : FileUpload} (h : mapGet m k = some f) : mapHas m k = true := by
  have := mapGet_mem h
  unfold mapHas
  rw [List.any_eq_true]
  exact ⟨(k, f), this, by simp⟩

theorem mapGet_mapSet_self (m : List (String × FileUpload)) (k : String)
    (v : FileUpload) : mapGet (mapSet m k v) k = some v := by
  induction m with
  | nil => exact mapGet_cons_pos rfl
  | cons hd tl ih =>
    by_cases hk : hd.1 = k
    · show mapGet (if hd.1 = k then (k, v) :: tl else hd :: mapSet tl k v) k = some v
      rw [if_pos hk]
      exact mapGet_cons_pos rfl
    · show mapGet (if hd.1 = k then (k, v) :: tl else hd :: mapSet tl k v) k = some v
      rw [if_neg hk, mapGet_cons_neg hk]
      exact ih

theorem mapGet_mapSet_ne {m : List (String × FileUpload)} {k q : String}
    (v : FileUpload) (h : k ≠ q) : mapGet (mapSet m k v) q = mapGet m q := by
  induction m with
  | nil => exact mapGet_cons_neg h
  | cons hd tl ih =>
    show mapGet (if hd.1 = k then (k, v) :: tl else hd :: mapSet tl k v) q = _
    by_cases hk : hd.1 = k
    · rw [if_pos hk, mapGet_cons_neg h]
      by_cases hq : hd.1 = q
      · exact absurd (hk ▸ hq) h
      · rw [mapGet_cons_neg hq]
    · rw [if_neg hk]
      by_cases hq : hd.1 = q
      · rw [mapGet_cons_pos hq, mapGet_cons_pos hq]
      · rw [mapGet_cons_neg hq, mapGet_cons_neg hq]
        exact ih

theorem mem_mapDelete {m : List (String × FileUpload)} {k : String}
    {kv : String × FileUpload} (h : kv ∈ mapDelete m k) : kv ∈ m ∧ kv.1 ≠ k := by
  unfold mapDelete at h
  have := List.of_mem_filter h
  refine ⟨List.mem_of_mem_filter h, by simpa using this⟩

theorem mapGet_mapDelete_self (m : List (String × FileUpload)) (k : String) :
    mapGet (mapDelete m k) k = none := by
  rw [mapGet_eq_none_iff]
  intro kv hkv
  exact (mem_mapDelete hkv).2

theorem mapDelete_of_absent {m : List (String × FileUpload)} {k : String}
    (h : mapGet m k = none) : mapDelete m k = m := by
  unfold mapDelete
  apply List.filter_eq_self.2
  intro kv hkv
  rw [mapGet_eq_none_iff] at h
  simpa using h kv hkv

/-! ## Lemmas about `updateFileUpload` and friends -/

theorem updateFileUpload_errors (s : UploadState) (k : String)
    (u : FileUpload → FileUpload) : (updateFileUpload s k u).errors = s.errors := by
  unfold updateFileUpload
  cases mapGet s.fileUploads k <;> rfl

theorem updateFileUpload_active (s : UploadState) (k : String)
    (u : FileUpload → FileUpload) :
    (updateFileUpload s k u).activeUploads = s.activeUploads := by
  unfold updateFileUpload
  cases mapGet s.fileUploads k <;> rfl

theorem updateFileUpload_fileRefs (s : UploadState) (k : String)
    (u : FileUpload → FileUpload) :
    (updateFileUpload s k u).fileRefs = s.fileRefs := by
  unfold updateFileUpload
  cases mapGet s.fileUploads k <;> rfl

theorem updateFileUpload_alertTimers (s : UploadState) (k : String)
    (u : FileUpload → FileUpload) :
    (updateFileUpload s k u).alertTimers = s.alertTimers := by
  unfold updateFileUpload
  cases mapGet s.fileUploads k <;> rfl

theorem updateFileUpload_maxFiles (s : UploadState) (k : String)
    (u : FileUpload → FileUpload) :
    (updateFileUpload s k u).maxFiles = s.maxFiles := by
  unfold updateFileUpload
  cases mapGet s.fileUploads k <;> rfl

theorem updateFileUpload_abort (s : UploadState) (k : String)
    (u : FileUpload → FileUpload) :
    (updateFileUpload s k u).abortControllers = s.abortControllers := by
  unfold updateFileUpload
  cases mapGet s.fileUploads k <;> rfl

theorem updateFileUpload_length (s : UploadState) (k : String)
    (u : FileUpload → FileUpload) :
    (updateFileUpload s k u).fileUploads.length = s.fileUploads.length := by
  unfold updateFileUpload
  cases hg : mapGet s.fileUploads k with
  | none => rfl
  | some f => simpa using length_mapSet_of_has (v := u f) (mapHas_of_mapGet hg)

theorem updateFileUpload_absent {s : UploadState} {k : String}
    (u : FileUpload → FileUpload) (h : mapGet s.fileUploads k = none) :
    updateFileUpload s k u = s := by
  unfold updateFileUpload
  rw [h]

theorem mapGet_updateFileUpload_self {s : UploadState} {k : String}
    {f : FileUpload} (u : FileUpload → FileUpload)
    (h : mapGet s.fileUploads k = some f) :
    mapGet (updateFileUpload s k u).fileUploads k = some (u f) := by
  unfold updateFileUpload
  rw [h]
  exact mapGet_mapSet_self _ _ _

theorem mem_updateFileUpload {s : UploadState} {k : String}
    {u : FileUpload → FileUpload} {kv : String × FileUpload}
    (h : kv ∈ (updateFileUpload s k u).fileUploads) :
    kv ∈ s.fileUploads ∨
      ∃ f, mapGet s.fileUploads k = some f ∧ kv = (k, u f) := by
  unfold updateFileUpload at h
  cases hg : mapGet s.fileUploads k with
  | none => rw [hg] at h; exact Or.inl h
  | some f =>
    rw [hg] at h
    rcases mem_mapSet h with h' | h'
    · exact Or.inl h'
    · exact Or.inr ⟨f, rfl, h'⟩

/-! ## Invariants -/

/-- Well-formedness of the collection: keys are pairwise distinct, and every
record is stored under its own content hash. -/
def KeysOk (m : List (String × FileUpload)) : Prop :=
  (m.map Prod.fst).Nodup ∧ ∀ kv ∈ m, kv.2.sha256 = kv.1

/-- Every record currently `uploading` is tracked in `activeUploads`. -/
def USub (s : UploadState) : Prop :=
  ∀ kv ∈ s.fileUploads, kv.2.status = UploadStatus.uploading →
    kv.1 ∈ s.activeUploads

/-- The inductive invariant of the manager. -/
def Inv (s : UploadState) : Prop :=
  KeysOk s.fileUploads ∧ USub s ∧ s.activeUploads.length ≤ maxConcurrency

theorem mem_keys_iff {m : List (String × FileUpload)} {k : String} :
    k ∈ m.map Prod.fst ↔ ∃ f, (k, f) ∈ m := by
  rw [List.mem_map]
  constructor
  · rintro ⟨kv, hm, rfl⟩
    exact ⟨kv.2, by rwa [Prod.mk.eta]⟩
  · rintro ⟨f, hm⟩
    exact ⟨(k, f), hm, rfl⟩

theorem keys_mapSet_eq (m : List (String × FileUpload)) (k : String)
    (v : FileUpload) :
    (mapSet m k v).map Prod.fst =
      if mapHas m k then m.map Prod.fst else m.map Prod.fst ++ [k] := by
  induction m with
  | nil => simp [mapSet, mapHas]
  | cons hd tl ih =>
    by_cases hk : hd.1 = k
    · simp [mapSet, hk, mapHas_cons]
    · rw [mapHas_cons]
      simp only [mapSet, if_neg hk]
      by_cases ht : mapHas tl k
      · simp [hk, ht, ih]
      · simp [hk, ht, ih]

theorem keysOk_mapSet {m : List (String × FileUpload)} {k : String}
    {v : FileUpload} (h : KeysOk m) (hv : v.sha256 = k) : KeysOk (mapSet m k v) := by
  obtain ⟨hnd, hsha⟩ := h
  constructor
  · rw [keys_mapSet_eq]
    by_cases hh : mapHas m k
    · simpa [hh] using hnd
    · rw [if_neg hh]
      rw [List.nodup_append]
      refine ⟨hnd, by simp, ?_⟩
      intro a ha hamem
      simp at hamem
      subst hamem
      rcases mem_keys_iff.1 ha with ⟨f, hf⟩
      exact hh (mapHas_iff.2 ⟨f, hf⟩)
  · intro kv hkv
    rcases mem_mapSet hkv with h' | h'
    · exact hsha kv h'
    · subst h'; exact hv

theorem keysOk_mapDelete {m : List (String × FileUpload)} (k : String)
    (h : KeysOk m) : KeysOk (mapDelete m k) := by
  obtain ⟨hnd, hsha⟩ := h
  constructor
  · exact hnd.sublist (List.Sublist.map _ (List.filter_sublist m))
  · intro kv hkv
    exact hsha kv (mem_mapDelete hkv).1

theorem keysOk_updateFileUpload {s : UploadState} {k : String}
    {u : FileUpload → FileUpload} (hu : ∀ f, (u f).sha256 = f.sha256)
    (h : KeysOk s.fileUploads) : KeysOk (updateFileUpload s k u).fileUploads := by
  unfold updateFileUpload
  cases hg : mapGet s.fileUploads k with
  | none => exact h
  | some f =>
    have hk : f.sha256 = k := h.2 (k, f) (mapGet_mem hg)
    exact keysOk_mapSet h (by rw [hu f, hk])

theorem mem_mapSet_nodup {m : List (String × FileUpload)} {k : String}
    {v : FileUpload} {kv : String × FileUpload}
    (hnd : (m.map Prod.fst).Nodup) (h : kv ∈ mapSet m k v) :
    (kv ∈ m ∧ kv.1 ≠ k) ∨ kv = (k, v) := by
  induction m with
  | nil => simp [mapSet] at h; simp [h]
  | cons hd tl ih =>
    simp only [List.map_cons, List.nodup_cons] at hnd
    obtain ⟨hhd, htl⟩ := hnd
    by_cases hk : hd.1 = k
    · simp only [mapSet, if_pos hk] at h
      rcases List.mem_cons.1 h with h' | h'
      · exact Or.inr h'
      · left
        refine ⟨List.mem_cons_of_mem _ h', ?_⟩
        intro hkv
        apply hhd
        rw [hk, ← hkv]
        exact mem_keys_iff.2 ⟨kv.2, by rwa [Prod.mk.eta]⟩
    · simp only [mapSet, if_neg hk] at h
      rcases List.mem_cons.1 h with h' | h'
      · left; exact ⟨by simp [h'], by rw [h']; exact hk⟩
      · rcases ih htl h' with h'' | h''
        · exact Or.inl ⟨List.mem_cons_of_mem _ h''.1, h''.2⟩
        · exact Or.inr h''

theorem usub_updateFileUpload {s : UploadState} {k : String}
    {u : FileUpload → FileUpload}
    (hu : ∀ f, (u f).status = UploadStatus.uploading →
      f.status = UploadStatus.uploading)
    (hU : USub s) :
    ∀ kv ∈ (updateFileUpload s k u).fileUploads,
      kv.2.status = UploadStatus.uploading → kv.1 ∈ s.activeUploads := by
  intro kv hkv hupl
  rcases mem_updateFileUpload hkv with h | ⟨f, hget, rfl⟩
  · exact hU kv h hupl
  · have hf : f.status = UploadStatus.uploading := hu f (by simpa using hupl)
    exact hU (k, f) (mapGet_mem hget) hf

theorem mem_listInsert_self (l : List String) (h : String) :
    h ∈ listInsert l h := by
  unfold listInsert
  by_cases hc : l.contains h
  · rw [if_pos hc]
    simpa using hc
  · rw [if_neg hc]
    simp

theorem subset_listInsert (l : List String) (h : String) :
    l ⊆ listInsert l h := by
  unfold listInsert
  by_cases hc : l.contains h
  · rw [if_pos hc]
    exact fun _ h => h
  · rw [if_neg hc]
    exact List.subset_append_left _ _

theorem length_listInsert_le (l : List String) (h : String) :
    (listInsert l h).length ≤ l.length + 1 := by
  unfold listInsert
  by_cases hc : l.contains h
  · rw [if_pos hc]; omega
  · rw [if_neg hc]; simp

/-! ## Invariant preservation -/

theorem inv_congr {s t : UploadState} (hf : t.fileUploads = s.fileUploads)
    (ha : t.activeUploads = s.activeUploads) (h : Inv s) : Inv t := by
  obtain ⟨hK, hU, hA⟩ := h
  refine ⟨hf ▸ hK, ?_, ha ▸ hA⟩
  intro kv hkv hupl
  rw [ha]
  exact hU kv (hf ▸ hkv) hupl

theorem inv_updateFileUpload {s : UploadState} {k : String}
    {u : FileUpload → FileUpload} (hsha : ∀ f, (u f).sha256 = f.sha256)
    (hst : ∀ f, (u f).status = UploadStatus.uploading →
      f.status = UploadStatus.uploading)
    (h : Inv s) : Inv (updateFileUpload s k u) := by
  obtain ⟨hK, hU, hA⟩ := h
  refine ⟨keysOk_updateFileUpload hsha hK, ?_, ?_⟩
  · intro kv hkv hupl
    rw [updateFileUpload_active]
    exact usub_updateFileUpload hst hU kv hkv hupl
  · rw [updateFileUpload_active]
    exact hA

theorem mem_filter_ne {l : List String} {a x : String} (ha : a ∈ l)
    (hne : a ≠ x) : a ∈ l.filter (· ≠ x) := by
  rw [List.mem_filter]
  exact ⟨ha, by simp [hne]⟩

theorem mem_updateFileUpload_nodup {s : UploadState} {k : String}
    {u : FileUpload → FileUpload} {kv : String × FileUpload}
    (hnd : (s.fileUploads.map Prod.fst).Nodup)
    (h : kv ∈ (updateFileUpload s k u).fileUploads) :
    (kv ∈ s.fileUploads ∧ kv.1 ≠ k) ∨
      ∃ f, mapGet s.fileUploads k = some f ∧ kv = (k, u f) := by
  unfold updateFileUpload at h
  cases hg : mapGet s.fileUploads k with
  | none =>
    rw [hg] at h
    refine Or.inl ⟨h, ?_⟩
    rw [mapGet_eq_none_iff] at hg
    exact hg kv h
  | some f =>
    rw [hg] at h
    rcases mem_mapSet_nodup hnd h with h' | h'
    · exact Or.inl h'
    · exact Or.inr ⟨f, rfl, h'⟩

theorem inv_addErrors (s : UploadState) (l : List UploadError) (h : Inv s) :
    Inv (addErrors s l) := by
  unfold addErrors
  by_cases hl : l.length > 0 <;> simp [hl] <;>
    exact inv_congr rfl rfl h

theorem inv_clearErrors (s : UploadState) (h : Inv s) : Inv (clearErrors s) :=
  inv_congr rfl rfl h

theorem inv_removeAll (s : UploadState) (_h : Inv s) : Inv (removeAll s) := by
  refine ⟨⟨by simp [removeAll], ?_⟩, ?_, ?_⟩
  · intro kv hkv
    simp [removeAll] at hkv
  · intro kv hkv
    simp [removeAll] at hkv
  · simp [removeAll, maxConcurrency]

theorem inv_removeFile (s : UploadState) (fileId : String) (h : Inv s) :
    Inv (removeFile s fileId) := by
  obtain ⟨hK, hU, hA⟩ := h
  unfold removeFile
  cases hg : mapGet s.fileUploads fileId with
  | none =>
    refine ⟨hK, ?_, ?_⟩
    · intro kv hkv hupl
      simp only at hkv
      rw [mapGet_eq_none_iff] at hg
      exact mem_filter_ne (hU kv hkv hupl) (hg kv hkv)
    · exact le_trans (List.length_filter_le _ _) hA
  | some f =>
    refine ⟨keysOk_mapDelete _ hK, ?_, ?_⟩
    · intro kv hkv hupl
      simp only at hkv
      obtain ⟨hmem, hne⟩ := mem_mapDelete hkv
      exact mem_filter_ne (hU kv hmem hupl) hne
    · exact le_trans (List.length_filter_le _ _) hA

theorem inv_progressUpdate (s : UploadState) (k : String) (p : Nat)
    (h : Inv s) : Inv (progressUpdate s k p) :=
  inv_updateFileUpload (by intro f; rfl) (by intro f hf; exact hf) h

theorem inv_handleDuplicateFile (s : UploadState) (k : String) (h : Inv s) :
    Inv (handleDuplicateFile s k) := by
  unfold handleDuplicateFile
  exact inv_congr rfl rfl
    (inv_updateFileUpload (by intro f; rfl) (by intro f hf; exact hf) h)

theorem inv_fireAlertTimer (s : UploadState) (k : String) (h : Inv s) :
    Inv (fireAlertTimer s k) := by
  unfold fireAlertTimer
  by_cases hc : s.alertTimers.contains (k, 1000)
  · rw [if_pos hc]
    exact inv_congr rfl rfl
      (inv_updateFileUpload (by intro f; rfl) (by intro f hf; exact hf) h)
  · rw [if_neg hc]
    exact h

theorem inv_finishUploadSuccess (s : UploadState) (k : String) (h : Inv s) :
    Inv (finishUploadSuccess s k) := by
  obtain ⟨hK, hU, hA⟩ := h
  have h1 : Inv (updateFileUpload s k
      (fun f => { f with status := UploadStatus.complete, progress := 100 })) :=
    inv_updateFileUpload (by intro f; rfl) (by intro f hf; exact absurd hf (by simp))
      ⟨hK, hU, hA⟩
  obtain ⟨hK1, hU1, hA1⟩ := h1
  unfold finishUploadSuccess
  refine ⟨hK1, ?_, ?_⟩
  · intro kv hkv hupl
    simp only at hkv ⊢
    rcases mem_updateFileUpload_nodup hK.1 hkv with ⟨hmem, hne⟩ | ⟨f, _, rfl⟩
    · rw [updateFileUpload_active]
      exact mem_filter_ne (hU kv hmem hupl) hne
    · simp at hupl
  · simp only [updateFileUpload_active]
    exact le_trans (List.length_filter_le _ _) hA

theorem inv_finishUploadError (s : UploadState) (k nm : String)
    (e : UploadError) (h : Inv s) : Inv (finishUploadError s k nm e) := by
  obtain ⟨hK, hU, hA⟩ := h
  unfold finishUploadError
  by_cases hdup : e.type = UploadErrorType.duplicate_file
  · simp only [if_pos hdup]
    refine ⟨keysOk_mapDelete _ hK, ?_, ?_⟩
    · intro kv hkv hupl
      simp only at hkv ⊢
      obtain ⟨hmem, hne⟩ := mem_mapDelete hkv
      exact mem_filter_ne (hU kv hmem hupl) hne
    · exact le_trans (List.length_filter_le _ _) hA
  · simp only [if_neg hdup]
    refine ⟨?_, ?_, ?_⟩
    · exact keysOk_updateFileUpload (by intro f; rfl) hK
    · intro kv hkv hupl
      simp only at hkv ⊢
      rcases mem_updateFileUpload_nodup hK.1 hkv with ⟨hmem, hne⟩ | ⟨f, _, rfl⟩
      · rw [updateFileUpload_active]
        exact mem_filter_ne (hU kv hmem hupl) hne
      · simp at hupl
    · simp only [updateFileUpload_active]
      exact le_trans (List.length_filter_le _ _) hA

/-! ### Fold lemmas for `sendFileRequest` -/

theorem foldl_insertUpload_state (created : List FileUpload) :
    ∀ st : UploadState, created.foldl insertUpload st =
      { st with fileUploads :=
          created.foldl (fun m f => mapSet m f.sha256 f) st.fileUploads } := by
  induction created with
  | nil => intro st; rfl
  | cons hd tl ih =>
    intro st
    rw [List.foldl_cons, List.foldl_cons, ih]
    rfl

theorem keysOk_foldl_mapSet (created : List FileUpload) :
    ∀ m, KeysOk m → KeysOk (created.foldl (fun m f => mapSet m f.sha256 f) m) := by
  induction created with
  | nil => intro m h; exact h
  | cons hd tl ih =>
    intro m h
    rw [List.foldl_cons]
    exact ih _ (keysOk_mapSet h rfl)

theorem mem_foldl_mapSet (created : List FileUpload) :
    ∀ m kv, kv ∈ created.foldl (fun m f => mapSet m f.sha256 f) m →
      kv ∈ m ∨ ∃ f ∈ created, kv = (f.sha256, f) := by
  induction created with
  | nil => intro m kv h; exact Or.inl h
  | cons hd tl ih =>
    intro m kv h
    rw [List.foldl_cons] at h
    rcases ih _ kv h with h' | ⟨f, hf, rfl⟩
    · rcases mem_mapSet h' with h'' | h''
      · exact Or.inl h''
      · exact Or.inr ⟨hd, by simp, by simp [h'']⟩
    · exact Or.inr ⟨f, List.mem_cons_of_mem _ hf, rfl⟩

theorem assignSignedUrls_status (reqs : List SignedUrlRequest) :
    ∀ sus f, f ∈ assignSignedUrls reqs sus → f.status = UploadStatus.pending := by
  induction reqs with
  | nil => intro sus f h; simp [assignSignedUrls] at h
  | cons r rs ih =>
    intro sus f h
    cases sus with
    | nil => simp [assignSignedUrls] at h
    | cons su sus' =>
      rcases List.mem_cons.1 h with h' | h'
      · rw [h']; rfl
      · exact ih sus' f h'

theorem foldl_markRequestError_frame (msg : String)
    (reqs : List SignedUrlRequest) :
    ∀ st : UploadState,
      (reqs.foldl (markRequestError msg) st).errors = st.errors ∧
      (reqs.foldl (markRequestError msg) st).activeUploads = st.activeUploads ∧
      (reqs.foldl (markRequestError msg) st).fileRefs = st.fileRefs ∧
      (reqs.foldl (markRequestError msg) st).alertTimers = st.alertTimers ∧
      (reqs.foldl (markRequestError msg) st).maxFiles = st.maxFiles := by
  induction reqs with
  | nil => intro st; exact ⟨rfl, rfl, rfl, rfl, rfl⟩
  | cons r rs ih =>
    intro st
    rw [List.foldl_cons]
    have hstep :
        (markRequestError msg st r).errors = st.errors ∧
        (markRequestError msg st r).activeUploads = st.activeUploads ∧
        (markRequestError msg st r).fileRefs = st.fileRefs ∧
        (markRequestError msg st r).alertTimers = st.alertTimers ∧
        (markRequestError msg st r).maxFiles = st.maxFiles := by
      unfold markRequestError
      by_cases hc : mapHas st.fileUploads r.sha256
      · rw [if_pos hc]
        exact ⟨updateFileUpload_errors _ _ _, updateFileUpload_active _ _ _,
          updateFileUpload_fileRefs _ _ _, updateFileUpload_alertTimers _ _ _,
          updateFileUpload_maxFiles _ _ _⟩
      · rw [if_neg hc]
        exact ⟨rfl, rfl, rfl, rfl, rfl⟩
    obtain ⟨h1, h2, h3, h4, h5⟩ := ih (markRequestError msg st r)
    exact ⟨h1.trans hstep.1, h2.trans hstep.2.1, h3.trans hstep.2.2.1,
      h4.trans hstep.2.2.2.1, h5.trans hstep.2.2.2.2⟩

theorem inv_foldl_markRequestError (msg : String)
    (reqs : List SignedUrlRequest) :
    ∀ st : UploadState, Inv st → Inv (reqs.foldl (markRequestError msg) st) := by
  induction reqs with
  | nil => intro st h; exact h
  | cons r rs ih =>
    intro st h
    rw [List.foldl_cons]
    apply ih
    unfold markRequestError
    by_cases hc : mapHas st.fileUploads r.sha256
    · rw [if_pos hc]
      exact inv_updateFileUpload (by intro f; rfl)
        (by intro f hf; exact absurd hf (by simp)) h
    · rw [if_neg hc]
      exact h

theorem inv_sendFileRequest (s : UploadState) (reqs : List SignedUrlRequest)
    (neg : Except UploadError (List SignedUrlResponse)) (h : Inv s) :
    Inv (sendFileRequest s reqs neg).1 := by
  obtain ⟨hK, hU, hA⟩ := h
  cases neg with
  | ok urls =>
    show Inv ((assignSignedUrls reqs urls).foldl insertUpload s)
    rw [foldl_insertUpload_state]
    refine ⟨keysOk_foldl_mapSet _ _ hK, ?_, hA⟩
    intro kv hkv hupl
    simp only at hkv ⊢
    rcases mem_foldl_mapSet _ _ kv hkv with h' | ⟨f, hf, rfl⟩
    · exact hU kv h' hupl
    · have := assignSignedUrls_status reqs urls f hf
      simp only at hupl
      rw [this] at hupl
      exact absurd hupl (by simp)
  | error e =>
    exact inv_foldl_markRequestError e.message reqs s ⟨hK, hU, hA⟩

theorem sendFileRequest_errors (s : UploadState) (reqs : List SignedUrlRequest)
    (neg : Except UploadError (List SignedUrlResponse)) :
    (sendFileRequest s reqs neg).1.errors = s.errors := by
  cases neg with
  | ok urls =>
    show ((assignSignedUrls reqs urls).foldl insertUpload s).errors = s.errors
    rw [foldl_insertUpload_state]
  | error e => exact (foldl_markRequestError_frame e.message reqs s).1

theorem sendFileRequest_active (s : UploadState) (reqs : List SignedUrlRequest)
    (neg : Except UploadError (List SignedUrlResponse)) :
    (sendFileRequest s reqs neg).1.activeUploads = s.activeUploads := by
  cases neg with
  | ok urls =>
    show ((assignSignedUrls reqs urls).foldl insertUpload s).activeUploads = _
    rw [foldl_insertUpload_state]
  | error e => exact (foldl_markRequestError_frame e.message reqs s).2.1

/-! ### The scheduler pass -/

theorem startUpload_frame (s : UploadState) (k : String) :
    (startUpload s k).errors = s.errors ∧
    (startUpload s k).fileRefs = s.fileRefs ∧
    (startUpload s k).alertTimers = s.alertTimers ∧
    (startUpload s k).maxFiles = s.maxFiles := by
  unfold startUpload
  by_cases hc : s.fileRefs.contains k
  · simp only [if_pos hc]
    exact ⟨updateFileUpload_errors _ _ _, updateFileUpload_fileRefs _ _ _,
      updateFileUpload_alertTimers _ _ _, updateFileUpload_maxFiles _ _ _⟩
  · simp only [if_neg hc]
    exact ⟨trivial, trivial, trivial, trivial⟩

theorem startUpload_weak (s : UploadState) (k : String)
    (hK : KeysOk s.fileUploads) (hU : USub s) :
    KeysOk (startUpload s k).fileUploads ∧ USub (startUpload s k) := by
  unfold startUpload
  by_cases hc : s.fileRefs.contains k
  · simp only [if_pos hc]
    set s1 : UploadState :=
      { s with abortControllers := listInsert s.abortControllers k
               activeUploads := listInsert s.activeUploads k } with hs1
    have hK1 : KeysOk s1.fileUploads := hK
    constructor
    · exact keysOk_updateFileUpload (by intro f; rfl) hK1
    · intro kv hkv hupl
      rw [updateFileUpload_active]
      rcases mem_updateFileUpload hkv with h' | ⟨f, _, rfl⟩
      · exact subset_listInsert _ _ (hU kv h' hupl)
      · exact mem_listInsert_self _ _
  · simp only [if_neg hc]
    exact ⟨hK, hU⟩

theorem startUpload_active_le (s : UploadState) (k : String) :
    (startUpload s k).activeUploads.length ≤ s.activeUploads.length + 1 := by
  unfold startUpload
  by_cases hc : s.fileRefs.contains k
  · simp only [if_pos hc]
    rw [updateFileUpload_active]
    exact length_listInsert_le _ _
  · simp only [if_neg hc]
    omega

theorem sched_foldl_weak (l : List (String × FileUpload)) :
    ∀ s : UploadState, KeysOk s.fileUploads → USub s →
      KeysOk (l.foldl (fun st kv => startUpload st kv.1) s).fileUploads ∧
      USub (l.foldl (fun st kv => startUpload st kv.1) s) := by
  induction l with
  | nil => intro s hK hU; exact ⟨hK, hU⟩
  | cons hd tl ih =>
    intro s hK hU
    rw [List.foldl_cons]
    obtain ⟨hK1, hU1⟩ := startUpload_weak s hd.1 hK hU
    exact ih _ hK1 hU1

theorem sched_foldl_active_le (l : List (String × FileUpload)) :
    ∀ s : UploadState,
      (l.foldl (fun st kv => startUpload st kv.1) s).activeUploads.length ≤
        s.activeUploads.length + l.length := by
  induction l with
  | nil => intro s; simp
  | cons hd tl ih =>
    intro s
    rw [List.foldl_cons]
    calc (tl.foldl (fun st kv => startUpload st kv.1)
            (startUpload s hd.1)).activeUploads.length
        ≤ (startUpload s hd.1).activeUploads.length + tl.length := ih _
      _ ≤ s.activeUploads.length + 1 + tl.length := by
          have := startUpload_active_le s hd.1
          omega
      _ = s.activeUploads.length + (hd :: tl).length := by simp; omega

theorem sched_foldl_errors (l : List (String × FileUpload)) :
    ∀ s : UploadState,
      (l.foldl (fun st kv => startUpload st kv.1) s).errors = s.errors := by
  induction l with
  | nil => intro s; rfl
  | cons hd tl ih =>
    intro s
    rw [List.foldl_cons]
    exact (ih _).trans (startUpload_frame s hd.1).1

theorem inv_schedulePass (s : UploadState) (h : Inv s) : Inv (schedulePass s) := by
  obtain ⟨hK, hU, hA⟩ := h
  unfold schedulePass promotedByPass
  by_cases hge : s.activeUploads.length ≥ maxConcurrency
  · rw [if_pos hge]
    exact ⟨hK, hU, hA⟩
  · rw [if_neg hge]
    obtain ⟨hK', hU'⟩ := sched_foldl_weak _ s hK hU
    refine ⟨hK', hU', ?_⟩
    have h1 := sched_foldl_active_le
      ((pendingNotActive s).take (maxConcurrency - s.activeUploads.length)) s
    have h2 : ((pendingNotActive s).take
        (maxConcurrency - s.activeUploads.length)).length ≤
        maxConcurrency - s.activeUploads.length := List.length_take_le _ _
    omega

theorem schedulePass_errors (s : UploadState) :
    (schedulePass s).errors = s.errors :=
  sched_foldl_errors _ s

/-! ### Staging-phase lemmas -/

theorem stageFile_frame (acc : UploadState × List SignedUrlRequest × List UploadError)
    (f : IncomingFile) :
    (stageFile acc f).1.errors = acc.1.errors ∧
    (stageFile acc f).1.activeUploads = acc.1.activeUploads ∧
    (stageFile acc f).1.maxFiles = acc.1.maxFiles ∧
    (stageFile acc f).1.fileUploads.length = acc.1.fileUploads.length := by
  obtain ⟨st, reqs, errs⟩ := acc
  unfold stageFile
  cases f.hashResult with
  | none => exact ⟨rfl, rfl, rfl, rfl⟩
  | some hash =>
    simp only
    by_cases hc : mapHas ({ st with
        fileRefs := listInsert st.fileRefs hash } : UploadState).fileUploads hash
    · simp only [if_pos hc]
      unfold handleDuplicateFile
      refine ⟨?_, ?_, ?_, ?_⟩
      · exact updateFileUpload_errors _ _ _
      · exact updateFileUpload_active _ _ _
      · exact updateFileUpload_maxFiles _ _ _
      · exact updateFileUpload_length _ _ _
    · simp only [if_neg hc]
      exact ⟨trivial, trivial, trivial, trivial⟩

theorem inv_stageFile (acc : UploadState × List SignedUrlRequest × List UploadError)
    (f : IncomingFile) (h : Inv acc.1) : Inv (stageFile acc f).1 := by
  obtain ⟨st, reqs, errs⟩ := acc
  unfold stageFile
  cases f.hashResult with
  | none => exact h
  | some hash =>
    simp only
    have h1 : Inv ({ st with fileRefs := listInsert st.fileRefs hash } : UploadState) :=
      inv_congr rfl rfl h
    by_cases hc : mapHas ({ st with
        fileRefs := listInsert st.fileRefs hash } : UploadState).fileUploads hash
    · simp only [if_pos hc]
      exact inv_handleDuplicateFile _ _ h1
    · simp only [if_neg hc]
      exact h1

theorem stage_foldl_frame (files : List IncomingFile) :
    ∀ acc : UploadState × List SignedUrlRequest × List UploadError,
      (files.foldl stageFile acc).1.errors = acc.1.errors ∧
      (files.foldl stageFile acc).1.activeUploads = acc.1.activeUploads ∧
      (files.foldl stageFile acc).1.maxFiles = acc.1.maxFiles ∧
      (files.foldl stageFile acc).1.fileUploads.length =
        acc.1.fileUploads.length := by
  induction files with
  | nil => intro acc; exact ⟨rfl, rfl, rfl, rfl⟩
  | cons hd tl ih =>
    intro acc
    rw [List.foldl_cons]
    obtain ⟨h1, h2, h3, h4⟩ := ih (stageFile acc hd)
    obtain ⟨g1, g2, g3, g4⟩ := stageFile_frame acc hd
    exact ⟨h1.trans g1, h2.trans g2, h3.trans g3, h4.trans g4⟩

theorem inv_stage_foldl (files : List IncomingFile) :
    ∀ acc : UploadState × List SignedUrlRequest × List UploadError,
      Inv acc.1 → Inv (files.foldl stageFile acc).1 := by
  induction files with
  | nil => intro acc h; exact h
  | cons hd tl ih =>
    intro acc h
    rw [List.foldl_cons]
    exact ih _ (inv_stageFile acc hd h)

theorem inv_negotiatePhase (s : UploadState) (reqs : List SignedUrlRequest)
    (neg : Except UploadError (List SignedUrlResponse)) (h : Inv s) :
    Inv (negotiatePhase s reqs neg) := by
  unfold negotiatePhase
  by_cases hr : reqs.length > 0
  · simp only [if_pos hr]
    by_cases he : (sendFileRequest s reqs neg).2.2.length > 0
    · simp only [if_pos he]
      exact inv_congr rfl rfl (inv_sendFileRequest s reqs neg h)
    · simp only [if_neg he]
      exact inv_sendFileRequest s reqs neg h
  · simp only [if_neg hr]
    exact h

theorem inv_addFiles (s : UploadState) (files : List IncomingFile)
    (neg : Except UploadError (List SignedUrlResponse)) (h : Inv s) :
    Inv (addFiles s files neg) := by
  unfold addFiles
  simp only
  by_cases hc : availableSlots { s with errors := [] } ≤ 0
  · rw [if_pos hc]
    exact inv_congr rfl rfl h
  · rw [if_neg hc]
    have h1 : Inv ({ s with errors := [] } : UploadState) := inv_congr rfl rfl h
    set s2 : UploadState :=
      if files.length > (filesToProcess { s with errors := [] } files).length then
        { ({ s with errors := [] } : UploadState) with
            errors := ([] : List UploadError) ++
              [limitError (availableSlots { s with errors := [] }).toNat] }
      else { s with errors := [] } with hs2
    have h2 : Inv s2 := by
      rw [hs2]
      split
      · exact inv_congr rfl rfl h1
      · exact h1
    have h3 := inv_stage_foldl (filesToProcess { s with errors := [] } files)
      (s2, [], []) h2
    apply inv_negotiatePhase
    split
    · exact inv_congr rfl rfl h3
    · exact h3

theorem inv_retryUpload (s : UploadState) (fileId : String)
    (neg : Except UploadError (List SignedUrlResponse)) (h : Inv s) :
    Inv (retryUpload s fileId neg) := by
  unfold retryUpload
  cases mapGet s.fileUploads fileId with
  | none => exact h
  | some fu =>
    simp only
    split
    · exact h
    · split
      · exact inv_congr rfl rfl (inv_sendFileRequest s _ neg h)
      · exact inv_sendFileRequest s _ neg h

/-! ### Invariant at the initial state and along every run -/

theorem inv_initState (maxFiles : Nat) (defaults : List FileUpload) :
    Inv (initState maxFiles defaults) := by
  unfold initState
  simp only
  refine ⟨?_, ?_, ?_⟩
  · exact keysOk_foldl_mapSet _ [] ⟨by simp, by simp⟩
  · intro kv hkv hupl
    simp only at hkv
    rcases mem_foldl_mapSet _ _ kv hkv with h' | ⟨f, hf, rfl⟩
    · simp at h'
    · rcases List.mem_map.1 hf with ⟨g, _, rfl⟩
      simp at hupl
  · simp [maxConcurrency]

theorem inv_step {s t : UploadState} (h : Inv s) (hst : Step s t) : Inv t := by
  cases hst with
  | addFiles files neg => exact inv_addFiles s files neg h
  | removeFile fileId => exact inv_removeFile s fileId h
  | removeAll => exact inv_removeAll s h
  | retryUpload fileId neg => exact inv_retryUpload s fileId neg h
  | addErrors l => exact inv_addErrors s l h
  | clearErrors => exact inv_clearErrors s h
  | schedulePass => exact inv_schedulePass s h
  | progress k p => exact inv_progressUpdate s k p h
  | finishOk k => exact inv_finishUploadSuccess s k h
  | finishErr k nm e => exact inv_finishUploadError s k nm e h
  | fireTimer k => exact inv_fireAlertTimer s k h

theorem inv_reachable {init s : UploadState} (hinit : Inv init)
    (h : Reachable init s) : Inv s := by
  induction h with
  | refl => exact hinit
  | tail _ hst ih => exact inv_step ih hst

/-! ### Counting transferring records -/

theorem nodup_subset_length_le {l1 l2 : List String} (h1 : l1.Nodup)
    (h2 : l1 ⊆ l2) : l1.length ≤ l2.length := by
  calc l1.length = l1.toFinset.card := by rw [List.toFinset_card_of_nodup h1]
    _ ≤ l2.toFinset.card := Finset.card_le_card (fun a ha => by
        rw [List.mem_toFinset] at ha ⊢; exact h2 ha)
    _ ≤ l2.length := l2.toFinset_card_le

theorem countUploading_le_of_inv (s : UploadState) (h : Inv s) :
    countUploading s ≤ maxConcurrency := by
  obtain ⟨⟨hnd, _⟩, hU, hA⟩ := h
  have hsub : ((s.fileUploads.filter
      (fun kv => kv.2.status = UploadStatus.uploading)).map Prod.fst) ⊆
      s.activeUploads := by
    intro k hk
    rcases List.mem_map.1 hk with ⟨kv, hkv, rfl⟩
    obtain ⟨hmem, hpred⟩ := List.mem_filter.1 hkv
    exact hU kv hmem (by simpa using hpred)
  have hnd' : ((s.fileUploads.filter
      (fun kv => kv.2.status = UploadStatus.uploading)).map Prod.fst).Nodup :=
    hnd.sublist (List.Sublist.map _ (List.filter_sublist _))
  calc countUploading s
      = ((s.fileUploads.filter
          (fun kv => kv.2.status = UploadStatus.uploading)).map Prod.fst).length := by
        simp [countUploading]
    _ ≤ s.activeUploads.length := nodup_subset_length_le hnd' hsub
    _ ≤ maxConcurrency := hA

theorem sha_nodup_of_keysOk {m : List (String × FileUpload)} (h : KeysOk m) :
    (m.map (fun kv => kv.2.sha256)).Nodup := by
  have heq : m.map (fun kv => kv.2.sha256) = m.map Prod.fst := by
    apply List.map_congr_left
    intro kv hkv
    exact h.2 kv hkv
  rw [heq]
  exact h.1

/-! ### `addFiles` error-log computations -/

theorem stage_foldl_perrs (files : List IncomingFile) :
    ∀ (acc : UploadState × List SignedUrlRequest × List UploadError),
      (∀ f ∈ files, f.hashResult.isSome) →
      (files.foldl stageFile acc).2.2 = acc.2.2 := by
  induction files with
  | nil => intro acc _; rfl
  | cons hd tl ih =>
    intro acc hall
    rw [List.foldl_cons]
    have hstep : (stageFile acc hd).2.2 = acc.2.2 := by
      obtain ⟨st, reqs, errs⟩ := acc
      unfold stageFile
      cases hh : hd.hashResult with
      | none =>
        have := hall hd (by simp)
        rw [hh] at this
        simp at this
      | some hash =>
        simp only
        by_cases hc : mapHas ({ st with
            fileRefs := listInsert st.fileRefs hash } : UploadState).fileUploads hash
        · simp [if_pos hc]
        · simp [if_neg hc]
    rw [ih _ (fun f hf => hall f (List.mem_cons_of_mem _ hf)), hstep]

theorem negotiatePhase_ok_errors (s : UploadState)
    (reqs : List SignedUrlRequest) (urls : List SignedUrlResponse) :
    (negotiatePhase s reqs (.ok urls)).errors = s.errors := by
  unfold negotiatePhase
  by_cases hr : reqs.length > 0
  · simp only [if_pos hr]
    have h22 : (sendFileRequest s reqs (.ok urls)).2.2 = [] := rfl
    rw [h22]
    simp only [List.length_nil, gt_iff_lt, lt_irrefl, if_false]
    exact sendFileRequest_errors s reqs (.ok urls)
  · simp only [if_neg hr]

theorem negotiatePhase_nil (s : UploadState)
    (neg : Except UploadError (List SignedUrlResponse)) :
    negotiatePhase s [] neg = s := by
  unfold negotiatePhase
  simp

theorem addFiles_full (s : UploadState) (files : List IncomingFile)
    (neg : Except UploadError (List SignedUrlResponse))
    (h : availableSlots s ≤ 0) :
    (addFiles s files neg).errors = [maxFilesError s.maxFiles] ∧
    (addFiles s files neg).fileUploads = s.fileUploads ∧
    (addFiles s files neg).fileRefs = s.fileRefs := by
  unfold addFiles
  simp only
  rw [if_pos (show availableSlots { s with errors := [] } ≤ 0 from h)]
  exact ⟨rfl, rfl, rfl⟩

theorem addFiles_overflow_errors (s : UploadState) (files : List IncomingFile)
    (urls : List SignedUrlResponse) (hpos : 0 < availableSlots s)
    (hover : (availableSlots s).toNat < files.length)
    (hhash : ∀ f ∈ filesToProcess s files, f.hashResult.isSome) :
    (filesToProcess s files).length = (availableSlots s).toNat ∧
    (addFiles s files (.ok urls)).errors =
      [limitError (availableSlots s).toNat] := by
  have hlen : (filesToProcess s files).length = (availableSlots s).toNat := by
    unfold filesToProcess
    rw [List.length_take]
    omega
  refine ⟨hlen, ?_⟩
  unfold addFiles
  simp only
  rw [if_neg (show ¬ availableSlots { s with errors := [] } ≤ 0 by
    show ¬ availableSlots s ≤ 0; omega)]
  have htp : filesToProcess { s with errors := [] } files = filesToProcess s files :=
    rfl
  rw [htp]
  rw [if_pos (show files.length > (filesToProcess s files).length by omega)]
  have hperrs : (stagePhase
      ({ ({ s with errors := [] } : UploadState) with
          errors := ([] : List UploadError) ++
            [limitError (availableSlots { s with errors := [] }).toNat] })
      (filesToProcess s files)).2.2 = [] :=
    stage_foldl_perrs _ _ hhash
  rw [hperrs]
  simp only [List.length_nil, gt_iff_lt, lt_irrefl, if_false]
  have hse := stage_foldl_frame (filesToProcess s files)
    (({ ({ s with errors := [] } : UploadState) with
        errors := ([] : List UploadError) ++
          [limitError (availableSlots { s with errors := [] }).toNat] }), [], [])
  rw [negotiatePhase_ok_errors]
  rw [show stagePhase
      ({ ({ s with errors := [] } : UploadState) with
          errors := ([] : List UploadError) ++
            [limitError (availableSlots { s with errors := [] }).toNat] })
      (filesToProcess s files) = (filesToProcess s files).foldl stageFile
        (({ ({ s with errors := [] } : UploadState) with
            errors := ([] : List UploadError) ++
              [limitError (availableSlots { s with errors := [] }).toNat] }), [], [])
    from rfl]
  rw [hse.1]
  rfl

/-! ### The duplicate-add path of `addFiles` -/

theorem handleDuplicateFile_eq {s : UploadState} {hash : String} {f0 : FileUpload}
    (hget : mapGet s.fileUploads hash = some f0) :
    handleDuplicateFile s hash =
      { s with fileUploads := mapSet s.fileUploads hash
                 { f0 with duplicateAlert := true }
               alertTimers := s.alertTimers ++ [(hash, 1000)] } := by
  unfold handleDuplicateFile updateFileUpload
  rw [hget]

theorem stageFile_dup {st : UploadState} {reqs : List SignedUrlRequest}
    {errs : List UploadError} {file : IncomingFile} {hash : String}
    (hh : file.hashResult = some hash)
    (hhas : mapHas st.fileUploads hash = true) :
    stageFile (st, reqs, errs) file =
      (handleDuplicateFile { st with fileRefs := listInsert st.fileRefs hash } hash,
        reqs, errs) := by
  unfold stageFile
  rw [hh]
  simp only
  rw [if_pos (show mapHas ({ st with
      fileRefs := listInsert st.fileRefs hash } : UploadState).fileUploads hash
    from hhas)]

theorem addFiles_dup_eq {s : UploadState} {file : IncomingFile} {hash : String}
    {f0 : FileUpload} (neg : Except UploadError (List SignedUrlResponse))
    (hh : file.hashResult = some hash)
    (hget : mapGet s.fileUploads hash = some f0)
    (hcap : 0 < availableSlots s) :
    addFiles s [file] neg =
      { s with errors := []
               fileRefs := listInsert s.fileRefs hash
               fileUploads := mapSet s.fileUploads hash
                 { f0 with duplicateAlert := true }
               alertTimers := s.alertTimers ++ [(hash, 1000)] } := by
  have htake : filesToProcess { s with errors := [] } [file] = [file] := by
    show List.take (availableSlots s).toNat [file] = [file]
    have h1 : 0 < (availableSlots s).toNat := by omega
    cases hmn : (availableSlots s).toNat with
    | zero => omega
    | succ n => simp
  unfold addFiles
  simp only
  rw [if_neg (show ¬ availableSlots { s with errors := [] } ≤ 0 by
    show ¬ availableSlots s ≤ 0; omega)]
  rw [htake]
  simp only [List.length_cons, List.length_nil, gt_iff_lt, lt_irrefl, if_false]
  have hstage : stagePhase ({ s with errors := [] } : UploadState) [file] =
      (handleDuplicateFile
        { s with errors := [], fileRefs := listInsert s.fileRefs hash } hash,
        [], []) := by
    show stageFile (({ s with errors := [] } : UploadState), [], []) file = _
    rw [stageFile_dup hh
      (show mapHas ({ s with errors := [] } : UploadState).fileUploads hash
        from mapHas_of_mapGet hget)]
  rw [hstage]
  have hdup := handleDuplicateFile_eq
    (show mapGet ({ s with errors := [], fileRefs := listInsert s.fileRefs hash } : UploadState).fileUploads hash = some f0 from hget)
  rw [hdup]
  simp only [List.length_nil, gt_iff_lt, lt_irrefl, if_false]
  rw [negotiatePhase_nil]

/-! ### Frame facts used by the error-log claim -/

theorem addErrors_errors_ext (s : UploadState) (l : List UploadError) :
    ∃ t, (addErrors s l).errors = s.errors ++ t := by
  unfold addErrors
  by_cases hl : l.length > 0
  · rw [if_pos hl]; exact ⟨l, rfl⟩
  · rw [if_neg hl]; exact ⟨[], by simp⟩

theorem removeFile_errors (s : UploadState) (fileId : String) :
    (removeFile s fileId).errors = s.errors := by
  unfold removeFile
  cases mapGet s.fileUploads fileId <;> rfl

theorem retryUpload_errors_ext (s : UploadState) (fileId : String)
    (neg : Except UploadError (List SignedUrlResponse)) :
    ∃ t, (retryUpload s fileId neg).errors = s.errors ++ t := by
  unfold retryUpload
  cases mapGet s.fileUploads fileId with
  | none => exact ⟨[], by simp⟩
  | some fu =>
    simp only
    split
    · exact ⟨[], by simp⟩
    · split
      · refine ⟨(sendFileRequest s
          [{ name := fu.name, size := fu.size, type := fu.type,
             sha256 := fu.sha256, preview := fu.preview }] neg).2.2, ?_⟩
        simp only
        rw [sendFileRequest_errors]
      · exact ⟨[], by rw [sendFileRequest_errors]; simp⟩

theorem progressUpdate_errors (s : UploadState) (k : String) (p : Nat) :
    (progressUpdate s k p).errors = s.errors :=
  updateFileUpload_errors _ _ _

theorem finishUploadSuccess_errors (s : UploadState) (k : String) :
    (finishUploadSuccess s k).errors = s.errors := by
  unfold finishUploadSuccess
  simp only
  exact updateFileUpload_errors _ _ _

theorem finishUploadError_errors_ext (s : UploadState) (k nm : String)
    (e : UploadError) :
    ∃ t, (finishUploadError s k nm e).errors = s.errors ++ t := by
  unfold finishUploadError
  by_cases hdup : e.type = UploadErrorType.duplicate_file
  · rw [if_pos hdup]
    exact ⟨[duplicateUploadError nm], rfl⟩
  · rw [if_neg hdup]
    refine ⟨[], ?_⟩
    simp only
    rw [updateFileUpload_errors]
    simp

theorem fireAlertTimer_errors (s : UploadState) (k : String) :
    (fireAlertTimer s k).errors = s.errors := by
  unfold fireAlertTimer
  by_cases hc : s.alertTimers.contains (k, 1000)
  · rw [if_pos hc]
    simp only
    exact updateFileUpload_errors _ _ _
  · rw [if_neg hc]

/-! ### `removeFile` and the aborted-transfer error path -/

theorem removeFile_mapGet_self (s : UploadState) (fileId : String) :
    mapGet (removeFile s fileId).fileUploads fileId = none := by
  unfold removeFile
  cases hg : mapGet s.fileUploads fileId with
  | none => exact hg
  | some f =>
    simp only
    exact mapGet_mapDelete_self _ _

theorem finishUploadError_absent {s : UploadState} {k : String} (nm : String)
    (e : UploadError) (h : mapGet s.fileUploads k = none) :
    (finishUploadError s k nm e).fileUploads = s.fileUploads := by
  unfold finishUploadError
  by_cases hdup : e.type = UploadErrorType.duplicate_file
  · rw [if_pos hdup]
    simp only
    exact mapDelete_of_absent h
  · rw [if_neg hdup]
    simp only
    rw [updateFileUpload_absent _ h]

/-! ### Header lemmas -/

theorem hget_cons_pos {hd : String × String} {tl : List (String × String)}
    {k : String} (h : hd.1 = toLowerStr k) : hget (hd :: tl) k = some hd.2 := by
  unfold hget
  rw [List.find?_cons_of_pos _ (by simp [h])]
  rfl

theorem hget_cons_neg {hd : String × String} {tl : List (String × String)}
    {k : String} (h : hd.1 ≠ toLowerStr k) : hget (hd :: tl) k = hget tl k := by
  unfold hget
  rw [List.find?_cons_of_neg _ (by simp [h])]

theorem hget_hset_self (hs : List (String × String)) (k v : String) :
    hget (hset hs k v) k = some v := by
  induction hs with
  | nil => exact hget_cons_pos rfl
  | cons hd tl ih =>
    show hget (if hd.1 = toLowerStr k then (hd.1, v) :: tl
      else hd :: hset tl k v) k = some v
    by_cases hk : hd.1 = toLowerStr k
    · rw [if_pos hk]
      exact hget_cons_pos hk
    · rw [if_neg hk, hget_cons_neg hk]
      exact ih

theorem hget_hset_ne {k q : String} (hs : List (String × String)) (v : String)
    (h : toLowerStr k ≠ toLowerStr q) : hget (hset hs k v) q = hget hs q := by
  induction hs with
  | nil => exact hget_cons_neg (fun hc => h hc)
  | cons hd tl ih =>
    show hget (if hd.1 = toLowerStr k then (hd.1, v) :: tl
      else hd :: hset tl k v) q = _
    by_cases hk : hd.1 = toLowerStr k
    · rw [if_pos hk]
      by_cases hq : hd.1 = toLowerStr q
      · exact absurd (hk ▸ hq) h
      · rw [hget_cons_neg (show ((hd.1, v) : String × String).1 ≠ toLowerStr q from hq),
          hget_cons_neg hq]
    · rw [if_neg hk]
      by_cases hq : hd.1 = toLowerStr q
      · rw [hget_cons_pos hq, hget_cons_pos hq]
      · rw [hget_cons_neg hq, hget_cons_neg hq]
        exact ih

theorem hget_customFold (l : List (String × String)) (q : String) :
    ∀ hs : List (String × String),
      (∀ kv ∈ l, protectedHeader kv.1 = true ∨ toLowerStr kv.1 ≠ toLowerStr q) →
      hget (l.foldl
        (fun hs kv => if protectedHeader kv.1 then hs else hset hs kv.1 kv.2) hs) q
        = hget hs q := by
  induction l with
  | nil => intro hs _; rfl
  | cons hd tl ih =>
    intro hs hall
    rw [List.foldl_cons]
    by_cases hp : protectedHeader hd.1
    · rw [if_pos hp]
      exact ih hs (fun kv hkv => hall kv (List.mem_cons_of_mem _ hkv))
    · rw [if_neg hp]
      rw [ih _ (fun kv hkv => hall kv (List.mem_cons_of_mem _ hkv))]
      rcases hall hd (by simp) with h | h
      · exact absurd h hp
      · exact hget_hset_ne hs hd.2 h

theorem not_protected_ne {kv1 q : String} (hq : protectedHeader q = true)
    (hnp : protectedHeader kv1 = false) : toLowerStr kv1 ≠ toLowerStr q := by
  intro hEq
  unfold protectedHeader at hq hnp
  rw [hEq] at hnp
  rw [hnp] at hq
  exact Bool.false_ne_true hq

theorem baseHeaders_contentType (tok : Option String) :
    hget (baseHeaders tok) "Content-Type" = some "application/json" := by
  unfold baseHeaders
  cases tok with
  | none =>
    rw [hget_hset_ne _ _ (by decide), hget_hset_ne _ _ (by decide),
      hget_hset_self]
  | some t =>
    rw [hget_hset_ne _ _ (by decide), hget_hset_ne _ _ (by decide),
      hget_hset_ne _ _ (by decide), hget_hset_self]

theorem baseHeaders_accept (tok : Option String) :
    hget (baseHeaders tok) "Accept" = some "application/json" := by
  unfold baseHeaders
  cases tok with
  | none => rw [hget_hset_self]
  | some t => rw [hget_hset_ne _ _ (by decide), hget_hset_self]

theorem baseHeaders_requestedWith (tok : Option String) :
    hget (baseHeaders tok) "X-Requested-With" = some "XMLHttpRequest" := by
  unfold baseHeaders
  cases tok with
  | none => rw [hget_hset_ne _ _ (by decide), hget_hset_self]
  | some t =>
    rw [hget_hset_ne _ _ (by decide), hget_hset_ne _ _ (by decide),
      hget_hset_self]

theorem baseHeaders_xsrf (t : String) :
    hget (baseHeaders (some t)) "X-XSRF-TOKEN" = some t := by
  unfold baseHeaders
  rw [hget_hset_self]

/-! ### Positional response assignment -/

theorem assignSignedUrls_positional (reqs : List SignedUrlRequest) :
    ∀ sus : List SignedUrlResponse,
      (assignSignedUrls reqs sus).map (fun f => (f.sha256, f.url)) =
        List.zipWith
          (fun (r : SignedUrlRequest) (su : SignedUrlResponse) =>
            (r.sha256, su.url)) reqs sus := by
  induction reqs with
  | nil => intro sus; cases sus <;> rfl
  | cons r rs ih =>
    intro sus
    cases sus with
    | nil => rfl
    | cons su sus' =>
      show (mkPendingUpload r su :: assignSignedUrls rs sus').map
          (fun f => (f.sha256, f.url)) = _
      rw [List.map_cons, List.zipWith_cons_cons, ih]
      rfl

theorem fireAlertTimer_flag {s : UploadState} {hash : String} {f : FileUpload}
    (hmem : (hash, 1000) ∈ s.alertTimers)
    (hg : mapGet s.fileUploads hash = some f) :
    (mapGet (fireAlertTimer s hash).fileUploads hash).map
      FileUpload.duplicateAlert = some false := by
  unfold fireAlertTimer
  rw [if_pos (show s.alertTimers.contains (hash, 1000) = true by
    simpa using hmem)]
  simp only
  rw [mapGet_updateFileUpload_self _ hg]
  rfl

/-! ## Concrete fixtures for witnesses and counterexamples -/

/-- A completed record stored under hash `"h"`. -/
def exRecord : FileUpload :=
  { id := "h", name := "a.txt", size := 1, type := "text/plain", sha256 := "h",
    url := "u", status := UploadStatus.complete, progress := 100 }

/-- An incoming file whose content hash collides with `exRecord`. -/
def dupIncoming : IncomingFile :=
  { name := "b.txt", size := 1, type := "text/plain", hashResult := some "h" }

/-- A provider holding `exRecord` with nine free slots. -/
def c1wState : UploadState :=
  { fileUploads := [("h", exRecord)], errors := [], activeUploads := [],
    abortControllers := [], fileRefs := ["h"], alertTimers := [], maxFiles := 10 }

/-- A provider holding `exRecord` with zero free slots (`maxFiles = 1`). -/
def c1cState : UploadState :=
  { fileUploads := [("h", exRecord)], errors := [], activeUploads := [],
    abortControllers := [], fileRefs := ["h"], alertTimers := [], maxFiles := 1 }

/-! ## Claim theorems -/

/-- Claim C1 (amended): in every reachable manager state the collection never
holds two records with the same content hash.  When the hash of an `addFiles` input
matches an existing record **and the candidate falls within the
remaining capacity** (`0 < availableSlots`), the collection size is
unchanged, the `duplicateAlert` flag of the existing record is set, a
1000 ms-delayed clearing timer is scheduled, and firing that timer clears
the flag.  (As the counterexample shows, with zero remaining capacity the
code records a capacity error and never reaches duplicate detection, so the
flag part of the original claim fails there.) -/
theorem C1_theorem :
    (∀ (maxFiles : Nat) (defaults : List FileUpload) (s : UploadState),
      Reachable (initState maxFiles defaults) s →
      (s.fileUploads.map (fun kv => kv.2.sha256)).Nodup) ∧
    (∀ (s : UploadState) (file : IncomingFile) (hash : String) (f0 : FileUpload)
      (neg : Except UploadError (List SignedUrlResponse)),
      file.hashResult = some hash →
      mapGet s.fileUploads hash = some f0 →
      0 < availableSlots s →
      (addFiles s [file] neg).fileUploads.length = s.fileUploads.length ∧
      (mapGet (addFiles s [file] neg).fileUploads hash).map
        FileUpload.duplicateAlert = some true ∧
      (hash, 1000) ∈ (addFiles s [file] neg).alertTimers ∧
      (mapGet (fireAlertTimer (addFiles s [file] neg) hash).fileUploads hash).map
        FileUpload.duplicateAlert = some false) := by
  constructor
  · intro m d s h
    exact sha_nodup_of_keysOk (inv_reachable (inv_initState m d) h).1
  · intro s file hash f0 neg hh hg hcap
    rw [addFiles_dup_eq neg hh hg hcap]
    refine ⟨?_, ?_, ?_, ?_⟩
    · exact length_mapSet_of_has (mapHas_of_mapGet hg)
    · show (mapGet (mapSet s.fileUploads hash
          { f0 with duplicateAlert := true }) hash).map
        FileUpload.duplicateAlert = some true
      rw [mapGet_mapSet_self]
      rfl
    · show (hash, 1000) ∈ s.alertTimers ++ [(hash, 1000)]
      simp
    · exact fireAlertTimer_flag
        (show (hash, 1000) ∈ s.alertTimers ++ [(hash, 1000)] by simp)
        (mapGet_mapSet_self _ _ _)

/-- Claim C1 counterexample (refutes the claim as stated): with a full
collection (`maxFiles = 1`), adding a file whose hash matches the existing
record leaves the size unchanged but does **not** set the `duplicateAlert`
flag and schedules no clearing timer — the capacity check runs first. -/
theorem C1_counterexample :
    mapHas c1cState.fileUploads "h" = true ∧
    dupIncoming.hashResult = some "h" ∧
    (addFiles c1cState [dupIncoming] (Except.ok [])).fileUploads.length =
      c1cState.fileUploads.length ∧
    (mapGet (addFiles c1cState [dupIncoming] (Except.ok [])).fileUploads "h").map
      FileUpload.duplicateAlert = some false ∧
    (addFiles c1cState [dupIncoming] (Except.ok [])).alertTimers = [] := by
  decide

/-- Claim C1 witness: the dedup invariant at an initial state, and the
duplicate pulse on a concrete provider with free capacity. -/
theorem C1_witness :
    ((initState 10 []).fileUploads.map (fun kv => kv.2.sha256)).Nodup ∧
    ((addFiles c1wState [dupIncoming] (Except.ok [])).fileUploads.length =
        c1wState.fileUploads.length ∧
      (mapGet (addFiles c1wState [dupIncoming] (Except.ok [])).fileUploads "h").map
        FileUpload.duplicateAlert = some true ∧
      ("h", 1000) ∈ (addFiles c1wState [dupIncoming] (Except.ok [])).alertTimers ∧
      (mapGet (fireAlertTimer
          (addFiles c1wState [dupIncoming] (Except.ok [])) "h").fileUploads
            "h").map FileUpload.duplicateAlert = some false) :=
  ⟨C1_theorem.1 10 [] (initState 10 []) Reachable.refl,
    C1_theorem.2 c1wState dupIncoming "h" exRecord (Except.ok []) rfl (by decide)
      (by decide)⟩

/-- Claim C2: in every reachable manager state the number of records with
`status = "uploading"` is at most the concurrency ceiling `maxConcurrency`,
which is the constant 3; and one scheduler pass promotes at most
`maxConcurrency - activeUploads.size` pending records. -/
theorem C2_theorem :
    (∀ (maxFiles : Nat) (defaults : List FileUpload) (s : UploadState),
      Reachable (initState maxFiles defaults) s →
      countUploading s ≤ maxConcurrency) ∧
    (∀ s : UploadState,
      (promotedByPass s).length ≤ maxConcurrency - s.activeUploads.length) ∧
    maxConcurrency = 3 := by
  refine ⟨?_, ?_, rfl⟩
  · intro m d s h
    exact countUploading_le_of_inv s (inv_reachable (inv_initState m d) h)
  · intro s
    unfold promotedByPass
    by_cases hge : s.activeUploads.length ≥ maxConcurrency
    · rw [if_pos hge]
      simp
    · rw [if_neg hge]
      exact List.length_take_le _ _

/-- Claim C2 witness: the bound holds at a concrete initial state. -/
theorem C2_witness : countUploading (initState 10 []) ≤ maxConcurrency :=
  C2_theorem.1 10 [] (initState 10 []) Reachable.refl

/-- Claim C3 (amended): response entries are matched to requested candidates
**by array position**, not by content hash: the i-th created record takes the
URL of the i-th response entry while keeping the hash of the i-th request —
the `sha256` field of the response entry is ignored. -/
theorem C3_theorem :
    ∀ (reqs : List SignedUrlRequest) (sus : List SignedUrlResponse),
      (assignSignedUrls reqs sus).map (fun f => (f.sha256, f.url)) =
        List.zipWith
          (fun (r : SignedUrlRequest) (su : SignedUrlResponse) =>
            (r.sha256, su.url)) reqs sus :=
  fun reqs sus => assignSignedUrls_positional reqs sus

/-- A staged candidate with hash `h`, for the response-correlation claim. -/
def c3req (h : String) : SignedUrlRequest :=
  { name := h ++ ".txt", size := 1, type := "text/plain", sha256 := h }

/-- A response entry bearing hash `h` and URL `u`. -/
def c3resp (h u : String) : SignedUrlResponse :=
  { sha256 := h, bucket := "b", key := "k", url := u }

/-- Claim C3 counterexample (refutes the claim as stated): permuting a
response whose entries carry the requested hashes makes the record for hash
`h1` receive URL `u2` — the URL of the entry bearing `h2` — instead of `u1`,
and the result differs from the by-hash matching the spec describes. -/
theorem C3_counterexample :
    (assignSignedUrls [c3req "h1", c3req "h2"]
        [c3resp "h2" "u2", c3resp "h1" "u1"]).map (fun f => (f.sha256, f.url)) =
      [("h1", "u2"), ("h2", "u1")] ∧
    (c3resp "h1" "u1").url = "u1" ∧
    ("u2" : String) ≠ "u1" ∧
    assignSignedUrls [c3req "h1", c3req "h2"]
        [c3resp "h2" "u2", c3resp "h1" "u1"] ≠
      assignSignedUrlsByHash [c3req "h1", c3req "h2"]
        [c3resp "h2" "u2", c3resp "h1" "u1"] := by
  decide

/-- Claim C4: when an `addFiles` batch exceeds the remaining capacity,
exactly `availableSlots` candidates are accepted for processing and the
error log afterwards holds exactly the single capacity `validation` error
stating how many more files could be added (given that hashing succeeds for
the accepted slice and the negotiation call succeeds); with zero remaining
capacity no candidate is accepted (the collection is untouched) and the log
holds exactly the max-files `validation` error. -/
theorem C4_theorem :
    (∀ (s : UploadState) (files : List IncomingFile)
      (urls : List SignedUrlResponse),
      0 < availableSlots s →
      (availableSlots s).toNat < files.length →
      (∀ f ∈ filesToProcess s files, f.hashResult.isSome) →
      (filesToProcess s files).length = (availableSlots s).toNat ∧
      (addFiles s files (Except.ok urls)).errors =
        [limitError (availableSlots s).toNat]) ∧
    (∀ (s : UploadState) (files : List IncomingFile)
      (neg : Except UploadError (List SignedUrlResponse)),
      availableSlots s ≤ 0 →
      (addFiles s files neg).errors = [maxFilesError s.maxFiles] ∧
      (addFiles s files neg).fileUploads = s.fileUploads) := by
  constructor
  · intro s files urls h1 h2 h3
    exact addFiles_overflow_errors s files urls h1 h2 h3
  · intro s files neg h
    exact ⟨(addFiles_full s files neg h).1, (addFiles_full s files neg h).2.1⟩

/-- A fresh provider with a single slot. -/
def c4state : UploadState := initState 1 []

/-- A full provider (`maxFiles = 1`, one record). -/
def c4full : UploadState :=
  { fileUploads := [("h", exRecord)], errors := [], activeUploads := [],
    abortControllers := [], fileRefs := ["h"], alertTimers := [], maxFiles := 1 }

/-- First incoming file of the capacity witness. -/
def c4fa : IncomingFile :=
  { name := "a.txt", size := 1, type := "text/plain", hashResult := some "ha" }

/-- Second incoming file of the capacity witness. -/
def c4fb : IncomingFile :=
  { name := "b.txt", size := 1, type := "text/plain", hashResult := some "hb" }

/-- Claim C4 witness: a two-file batch against one free slot, and any batch
against a full provider. -/
theorem C4_witness :
    ((filesToProcess c4state [c4fa, c4fb]).length =
        (availableSlots c4state).toNat ∧
      (addFiles c4state [c4fa, c4fb] (Except.ok [])).errors =
        [limitError (availableSlots c4state).toNat]) ∧
    ((addFiles c4full [c4fa] (Except.ok [])).errors =
        [maxFilesError c4full.maxFiles] ∧
      (addFiles c4full [c4fa] (Except.ok [])).fileUploads =
        c4full.fileUploads) :=
  ⟨C4_theorem.1 c4state [c4fa, c4fb] [] (by decide) (by decide) (by decide),
    C4_theorem.2 c4full [c4fa] (Except.ok []) (by decide)⟩

/-- Claim C5 (amended): when a transfer fails with error kind
`duplicate_file`, the handler deletes the record from the collection and
records a collection-level `duplicate_file` error naming the file — but it
does **not** release the raw byte source: `fileRefs` is left unchanged, so a
byte source remains owned for a hash that has no record (it is only released
by `removeFile` / `removeAll`). -/
theorem C5_theorem (s : UploadState) (hash nm : String) (e : UploadError)
    (h : e.type = UploadErrorType.duplicate_file) :
    (finishUploadError s hash nm e).fileUploads = mapDelete s.fileUploads hash ∧
    (finishUploadError s hash nm e).errors =
      s.errors ++ [duplicateUploadError nm] ∧
    (finishUploadError s hash nm e).fileRefs = s.fileRefs := by
  unfold finishUploadError
  rw [if_pos h]
  exact ⟨rfl, rfl, rfl⟩

/-- A record currently transferring under hash `"h"`. -/
def c5rec : FileUpload :=
  { id := "h", name := "a.txt", size := 1, type := "text/plain", sha256 := "h",
    url := "u", status := UploadStatus.uploading, progress := 50 }

/-- A provider with `c5rec` in flight and its byte source held. -/
def c5state : UploadState :=
  { fileUploads := [("h", c5rec)], errors := [], activeUploads := ["h"],
    abortControllers := ["h"], fileRefs := ["h"], alertTimers := [],
    maxFiles := 10 }

/-- The server-detected duplicate error of the transfer. -/
def c5err : UploadError :=
  { type := UploadErrorType.duplicate_file, message := "File already exists" }

/-- Claim C5 counterexample (refutes the claim as stated): after the
`duplicate_file` handler runs, the record for `"h"` is gone but `"h"` is
still in `fileRefs` — the byte source was not released. -/
theorem C5_counterexample :
    mapGet (finishUploadError c5state "h" "a.txt" c5err).fileUploads "h" =
      none ∧
    "h" ∈ (finishUploadError c5state "h" "a.txt" c5err).fileRefs := by
  decide

/-- Claim C5 witness: the amended statement applied to the concrete
in-flight provider. -/
theorem C5_witness :
    (finishUploadError c5state "h" "a.txt" c5err).fileUploads =
      mapDelete c5state.fileUploads "h" ∧
    (finishUploadError c5state "h" "a.txt" c5err).errors =
      c5state.errors ++ [duplicateUploadError "a.txt"] ∧
    (finishUploadError c5state "h" "a.txt" c5err).fileRefs = c5state.fileRefs :=
  C5_theorem c5state "h" "a.txt" c5err rfl

/-- Claim C8 (amended): every manager operation other than `clearErrors`,
`removeAll`/`reset` **and `addFiles`** only extends the error log —
`addErrors`, `removeFile`, `retryUpload`, the scheduler pass, progress
updates, transfer completion and failure, and the alert timers all keep
every previously recorded entry (the old log is a prefix of the new one).
`addFiles`, contrary to the claim, wipes the log first (see the
counterexample). -/
theorem C8_theorem :
    (∀ (s : UploadState) (l : List UploadError),
      ∃ t, (addErrors s l).errors = s.errors ++ t) ∧
    (∀ (s : UploadState) (fileId : String),
      (removeFile s fileId).errors = s.errors) ∧
    (∀ (s : UploadState) (fileId : String)
      (neg : Except UploadError (List SignedUrlResponse)),
      ∃ t, (retryUpload s fileId neg).errors = s.errors ++ t) ∧
    (∀ s : UploadState, (schedulePass s).errors = s.errors) ∧
    (∀ (s : UploadState) (k : String) (p : Nat),
      (progressUpdate s k p).errors = s.errors) ∧
    (∀ (s : UploadState) (k : String),
      (finishUploadSuccess s k).errors = s.errors) ∧
    (∀ (s : UploadState) (k nm : String) (e : UploadError),
      ∃ t, (finishUploadError s k nm e).errors = s.errors ++ t) ∧
    (∀ (s : UploadState) (k : String),
      (fireAlertTimer s k).errors = s.errors) :=
  ⟨addErrors_errors_ext, removeFile_errors, retryUpload_errors_ext,
    schedulePass_errors, progressUpdate_errors, finishUploadSuccess_errors,
    finishUploadError_errors_ext, fireAlertTimer_errors⟩

/-- A provider with one previously recorded error. -/
def c8state : UploadState :=
  { fileUploads := [], errors :=
      [{ type := UploadErrorType.validation_error, message := "old",
         details := ErrDetail.noDetail }],
    activeUploads := [], abortControllers := [], fileRefs := [],
    alertTimers := [], maxFiles := 10 }

/-- Claim C8 counterexample (refutes the claim as stated): `addFiles` begins
with `setErrors([])`, so a previously recorded error disappears even though
the operation is not `clearErrors`. -/
theorem C8_counterexample :
    c8state.errors ≠ [] ∧
    (addFiles c8state [] (Except.ok [])).errors = [] := by
  decide

/-- Claim C9: a record removed via `removeFile` cannot be resurrected by the
error-handling path of the aborted transfer: after `removeFile` the record is
gone, and running the transfer-failure handler for that id (with any error,
including the `s3_upload` "Upload aborted" one) leaves the collection
unchanged — the record never reappears, as `failed` or otherwise. -/
theorem C9_theorem (s : UploadState) (fileId nm : String) (e : UploadError) :
    mapGet (removeFile s fileId).fileUploads fileId = none ∧
    (finishUploadError (removeFile s fileId) fileId nm e).fileUploads =
      (removeFile s fileId).fileUploads ∧
    mapGet (finishUploadError (removeFile s fileId) fileId nm e).fileUploads
      fileId = none := by
  have h1 := removeFile_mapGet_self s fileId
  have h2 := finishUploadError_absent nm e h1
  exact ⟨h1, h2, by rw [h2]; exact h1⟩

/-- Claim C6 (amended): the negotiation headers always carry the fixed JSON
`Content-Type`/`Accept` pair and the `X-Requested-With` marker, and no
caller-supplied entry can override those three; the anti-forgery
`X-XSRF-TOKEN` header from the cookie is present whenever **no
caller-supplied entry carries that (case-insensitive) name** — but, contrary
to the claim, a caller entry named `X-XSRF-TOKEN` does override the cookie
token (see the counterexample): only content-type, accept and
x-requested-with are protected. -/
theorem C6_theorem (tok : Option String)
    (custom : Option (List (String × String))) :
    hget (buildRequestHeaders tok custom) "Content-Type" =
      some "application/json" ∧
    hget (buildRequestHeaders tok custom) "Accept" = some "application/json" ∧
    hget (buildRequestHeaders tok custom) "X-Requested-With" =
      some "XMLHttpRequest" ∧
    (∀ (t : String) (resolved : List (String × String)),
      tok = some t → custom = some resolved →
      (∀ kv ∈ resolved, toLowerStr kv.1 ≠ "x-xsrf-token") →
      hget (buildRequestHeaders tok custom) "X-XSRF-TOKEN" = some t) := by
  cases custom with
  | none =>
    refine ⟨baseHeaders_contentType tok, baseHeaders_accept tok,
      baseHeaders_requestedWith tok, ?_⟩
    intro t resolved _ hcust
    exact absurd hcust (by simp)
  | some resolved =>
    have hprot : ∀ (q : String), protectedHeader q = true →
        hget (buildRequestHeaders tok (some resolved)) q =
          hget (baseHeaders tok) q := by
      intro q hq
      show hget (resolved.foldl
        (fun hs kv => if protectedHeader kv.1 then hs else hset hs kv.1 kv.2)
        (baseHeaders tok)) q = _
      apply hget_customFold
      intro kv _
      by_cases hp : protectedHeader kv.1
      · exact Or.inl hp
      · refine Or.inr (not_protected_ne hq ?_)
        revert hp
        cases protectedHeader kv.1 <;> simp
    refine ⟨?_, ?_, ?_, ?_⟩
    · rw [hprot "Content-Type" (by decide)]
      exact baseHeaders_contentType tok
    · rw [hprot "Accept" (by decide)]
      exact baseHeaders_accept tok
    · rw [hprot "X-Requested-With" (by decide)]
      exact baseHeaders_requestedWith tok
    · intro t resolved' htok hcust hnover
      cases hcust
      subst htok
      show hget (resolved.foldl
        (fun hs kv => if protectedHeader kv.1 then hs else hset hs kv.1 kv.2)
        (baseHeaders (some t))) "X-XSRF-TOKEN" = some t
      rw [hget_customFold _ _ _ (fun kv hkv => Or.inr (by
        rw [show toLowerStr "X-XSRF-TOKEN" = "x-xsrf-token" from by decide]
        exact hnover kv hkv))]
      exact baseHeaders_xsrf t

/-- Claim C6 counterexample (refutes the claim as stated): with the cookie
token `"tok"` present, a caller-supplied `X-XSRF-TOKEN` entry overrides the
anti-forgery header — the request goes out with `"evil"`, not `"tok"`. -/
theorem C6_counterexample :
    hget (buildRequestHeaders (some "tok") (some [("X-XSRF-TOKEN", "evil")]))
      "X-XSRF-TOKEN" = some "evil" ∧
    ("evil" : String) ≠ "tok" := by
  decide

/-- Claim C6 witness: a caller `Authorization` header leaves all four fixed
headers intact. -/
theorem C6_witness :
    hget (buildRequestHeaders (some "tok") (some [("Authorization", "Bearer x")]))
      "Content-Type" = some "application/json" ∧
    hget (buildRequestHeaders (some "tok") (some [("Authorization", "Bearer x")]))
      "Accept" = some "application/json" ∧
    hget (buildRequestHeaders (some "tok") (some [("Authorization", "Bearer x")]))
      "X-Requested-With" = some "XMLHttpRequest" ∧
    hget (buildRequestHeaders (some "tok") (some [("Authorization", "Bearer x")]))
      "X-XSRF-TOKEN" = some "tok" := by
  obtain ⟨h1, h2, h3, h4⟩ :=
    C6_theorem (some "tok") (some [("Authorization", "Bearer x")])
  exact ⟨h1, h2, h3,
    h4 "tok" [("Authorization", "Bearer x")] rfl rfl (by decide)⟩

/-- Claim C7 (amended): a 422 response always yields a `validation_error`;
when some `files.*`-keyed message exists the error message is the `", "`-join
of all of them; when none exists the code falls back to the top-level
`message` field when that is present and non-empty — not always to the
generic `"Invalid file parameters"` the claim states (see the
counterexample) — and only to the generic text when `message` is absent or
empty (or the body fails to parse). -/
theorem C7_theorem (errs : List (String × List String)) (msg : Option String) :
    (handle422Error (some { errors := some errs, message := msg })).type =
      UploadErrorType.validation_error ∧
    (fileFieldMessages errs ≠ [] →
      (handle422Error (some { errors := some errs, message := msg })).message =
        String.intercalate ", " (fileFieldMessages errs)) ∧
    (fileFieldMessages errs = [] → (msg = none ∨ msg = some "") →
      (handle422Error (some { errors := some errs, message := msg })).message =
        "Invalid file parameters") ∧
    (∀ m, fileFieldMessages errs = [] → msg = some m → m ≠ "" →
      (handle422Error (some { errors := some errs, message := msg })).message =
        m) := by
  unfold handle422Error parseValidationErrors
  simp only
  by_cases hf : (fileFieldMessages errs).length > 0
  · rw [if_pos hf]
    refine ⟨rfl, fun _ => rfl, ?_, ?_⟩
    · intro hnil _
      rw [hnil] at hf
      simp at hf
    · intro m hnil _ _
      rw [hnil] at hf
      simp at hf
  · rw [if_neg hf]
    have hnil : fileFieldMessages errs = [] := by
      cases hlist : fileFieldMessages errs with
      | nil => rfl
      | cons a l => rw [hlist] at hf; simp at hf
    cases msg with
    | none =>
      exact ⟨rfl, fun hne => absurd hnil hne, fun _ _ => rfl,
        fun m _ hm => by cases hm⟩
    | some m =>
      by_cases hm : m = ""
      · subst hm
        refine ⟨rfl, fun hne => absurd hnil hne, fun _ _ => ?_, ?_⟩
        · simp [createError]
        · intro m' _ hm' hne
          cases hm'
          exact absurd rfl hne
      · refine ⟨rfl, fun hne => absurd hnil hne, fun _ hor => ?_, ?_⟩
        · rcases hor with h | h
          · cases h
          · rw [Option.some_inj] at h
            exact absurd h hm
        · intro m' _ hm' _
          cases hm'
          simp [createError, hm]

/-- A 422 body with no `files.*` field but a top-level message. -/
def c7body : ServerErrorResponse :=
  { errors := some [("other", ["x"])], message := some "Boo" }

/-- The spec-scenario 422 body. -/
def c7wbody : ServerErrorResponse :=
  { errors := some [("files.0.filesize", ["File too large"])], message := none }

/-- Claim C7 counterexample (refutes the fallback as stated): a 422 body with
no `files.*` field but a top-level `message` of `"Boo"` yields the message
`"Boo"`, not the generic `"Invalid file parameters"` the claim requires when
no file field matches. -/
theorem C7_counterexample :
    fileFieldMessages [("other", ["x"])] = [] ∧
    (handle422Error (some c7body)).message = "Boo" ∧
    ("Boo" : String) ≠ "Invalid file parameters" := by
  decide

/-- Claim C7 witness: the spec scenario — `{errors: {"files.0.filesize":
["File too large"]}}` yields a `validation_error` with message
`"File too large"`. -/
theorem C7_witness :
    (handle422Error (some c7wbody)).type = UploadErrorType.validation_error ∧
    (handle422Error (some c7wbody)).message = "File too large" := by
  obtain ⟨h1, h2, _, _⟩ :=
    C7_theorem [("files.0.filesize", ["File too large"])] none
  refine ⟨h1, ?_⟩
  rw [show (handle422Error (some c7wbody)).message =
    (handle422Error
      (some ⟨some [("files.0.filesize", ["File too large"])], none⟩)).message
    from rfl]
  rw [h2 (by decide)]
  decide

/-- Claim C10: every failure of `uploadToS3Storage` — abort, non-2xx status,
or network fault — is rethrown by `uploadFile` as an `UploadError` of type
exactly `"s3_upload"` carrying the underlying message. -/
theorem C10_theorem (o : S3Outcome) (e : S3Err)
    (h : uploadToS3Storage o = Except.error e) :
    ∃ d, uploadFile o = Except.error
      { type := UploadErrorType.s3_upload, message := e.message, details := d } := by
  unfold uploadFile
  rw [h]
  exact ⟨_, rfl⟩

/-- Claim C10 witness: an aborted transfer surfaces as an `s3_upload` error
with message "Upload aborted". -/
theorem C10_witness :
    ∃ d, uploadFile S3Outcome.aborted = Except.error
      { type := UploadErrorType.s3_upload, message := "Upload aborted",
        details := d } :=
  C10_theorem S3Outcome.aborted { message := "Upload aborted" } rfl

end ReactS3Upload
